import Mathlib

/-!
Verification of the PSX stock-prediction pipeline of this repository
(`backend/app/services/psx_prediction_service.py`,
`backend/app/services/psx_engine/sentiment_model.py`,
`backend/app/services/psx_engine/sentiment_analyzer.py`) against its
natural-language specification.

The Python code is shallowly embedded: pure functions become Lean
functions; file-system state (the prediction cache file, the seed
directory, the per-ticker sentiment cache files) is passed explicitly;
the external collaborators that are not part of the repository sources
(the market-data fetch, the forecast model `fit`/`predict_daily`) are
modelled as an environment parameter giving, per ticker, the outcome of
each external call, exactly as the orchestrator observes them.
Wall-clock timestamps are rationals measured in hours; float arithmetic
of the mathematical sentiment functions is embedded over the reals
(the spec explicitly does not require reproducing floating point).
`round(x, 2)` is embedded as rounding to 2 decimals.
-/

namespace BaqiAI

/-- Rounding to `d` decimals is used by the code via Python `round(x, n)`;
we embed the two call sites (2 and 3 decimals) over any floor field. -/
def round2 {α : Type} [LinearOrderedField α] [FloorRing α] (x : α) : α :=
  (round (x * 100) : ℤ) / 100

def round3 {α : Type} [LinearOrderedField α] [FloorRing α] (x : α) : α :=
  (round (x * 1000) : ℤ) / 1000

/-- One element of a `daily_predictions` list as stored in prediction
records (forecast-model output / seed-file content):
`{day, predicted_price, upside_potential, confidence}`. -/
structure DPred where
  day : ℕ
  predicted_price : ℚ
  upside_potential : ℚ
  confidence : ℚ
deriving DecidableEq

/-- A per-ticker prediction record as assembled by the orchestrator and by
the seed-tier loader (`stocks[symbol] = {...}` in
`psx_prediction_service.py`). -/
structure PredRecord where
  symbol : String
  sector : String
  current_price : ℚ
  daily_predictions : List DPred
  prediction_reasoning : String
  metrics : List (String × ℚ)
deriving DecidableEq

/-- The `generated_at` field of a cache document: the code stores either an
ISO timestamp string (embedded as the instant `t`, in hours), the seed
sentinel string `"seed_data"`, or the field may be missing / empty /
unparseable by `datetime.fromisoformat`. -/
inductive GenField where
  | absent
  | emptyStr
  | seedData
  | malformed (s : String)
  | iso (t : ℚ)
deriving DecidableEq

/-- The prediction cache document
`{generated_at, source, stocks}` (`psx_predictions_cache.json`). -/
structure CacheDoc where
  generated_at : GenField
  source : String
  stocks : List (String × PredRecord)
deriving DecidableEq

/-- `PREDICTION_ORDER` — the fixed, ordered ticker registry. -/
def PREDICTION_ORDER : List String := ["LUCK", "FFC", "OGDC", "UBL", "SYS"]

/-- `SYMBOL_SECTOR_MAP` derived from `SECTOR_STOCKS` (symbol to display
sector, `k.title()` applied to the sector keys). -/
def SYMBOL_SECTOR_MAP : List (String × String) :=
  [("LUCK", "Cement"), ("FFC", "Fertilizer"), ("OGDC", "Energy"),
   ("UBL", "Banking"), ("SYS", "Tech")]

/-- `SYMBOL_SECTOR_MAP.get(symbol, "Unknown")`. -/
def lookupSector (symbol : String) : String :=
  (SYMBOL_SECTOR_MAP.lookup symbol).getD "Unknown"

/-- Content of one seed file `{symbol}_research_predictions_2026.json`
(the fields `_load_seed_data` / `_extract_current_price` read). -/
structure SeedData where
  current_price : Option ℚ
  daily_predictions : List DPred
  prediction_reasoning : String
  metrics : List (String × ℚ)
deriving DecidableEq

/-- A seed file on disk: parseable content, or a JSON/KeyError on load. -/
inductive SeedFile where
  | corrupt
  | ok (data : SeedData)
deriving DecidableEq

/-- The live cache file on disk: missing, unparseable, or a parsed
document. -/
inductive LiveState where
  | absent
  | corrupt
  | present (doc : CacheDoc)
deriving DecidableEq

/-- The file-system state the prediction store reads: the live cache file
and the seed directory (`none` = directory missing, otherwise the seed
file found per symbol). -/
structure Store where
  liveCache : LiveState
  seedDir : Option (List (String × SeedFile))
deriving DecidableEq

/-- `_extract_current_price`: the explicit `current_price` field when
present, else derived from the first daily prediction
(`predicted_price / (1 + upside_potential/100)` rounded to 2 decimals
when the upside is nonzero), else `0.0`. -/
def extract_current_price (data : SeedData) : ℚ :=
  match data.current_price with
  | some p => p
  | none =>
    match data.daily_predictions with
    | [] => 0
    | first :: _ =>
      let upside_pct := first.upside_potential / 100
      if upside_pct ≠ 0 then round2 (first.predicted_price / (1 + upside_pct))
      else first.predicted_price

/-- One iteration of the `for symbol in PREDICTION_ORDER` loop of
`_load_seed_data`: a missing or corrupt seed file contributes nothing. -/
def load_seed_stock (seeds : List (String × SeedFile)) (symbol : String) :
    Option (String × PredRecord) :=
  match seeds.lookup symbol with
  | some (.ok data) =>
    some (symbol,
      { symbol := symbol
        sector := lookupSector symbol
        current_price := extract_current_price data
        daily_predictions := data.daily_predictions.take 21
        prediction_reasoning := data.prediction_reasoning
        metrics := data.metrics })
  | some .corrupt => none
  | none => none

/-- `_load_seed_data`: assemble a synthetic cache document
(`generated_at = "seed_data"`, `source = "pre_computed"`) from the seed
files of the registry symbols; `None` when the directory is missing or
no seed file loads. -/
def load_seed_data (st : Store) : Option CacheDoc :=
  match st.seedDir with
  | none => none
  | some seeds =>
    let stocks := PREDICTION_ORDER.filterMap (load_seed_stock seeds)
    if stocks.isEmpty then none
    else some { generated_at := .seedData, source := "pre_computed", stocks := stocks }

/-- `load_cached_predictions`: tier 1 is the live cache file (used only
when it parses and its `stocks` map is nonempty — a parse failure only
logs a warning), tier 2 the seed data, tier 3 `None`. -/
def load_cached_predictions (st : Store) : Option CacheDoc :=
  match st.liveCache with
  | .present doc => if ¬doc.stocks.isEmpty then some doc else load_seed_data st
  | .corrupt => load_seed_data st
  | .absent => load_seed_data st

/-- `is_cache_fresh(cache, max_age_hours=24)`: false on a missing/empty
document, a falsy or `"seed_data"` `generated_at`, or a
`fromisoformat` failure; otherwise `now - gen_time < timedelta(hours=max_age_hours)`. -/
def is_cache_fresh (cache : Option CacheDoc) (now max_age_hours : ℚ) : Bool :=
  match cache with
  | none => false
  | some c =>
    match c.generated_at with
    | .absent => false
    | .emptyStr => false
    | .seedData => false
    | .malformed _ => false
    | .iso t => decide (now - t < max_age_hours)

/-- `_save_cache`: the document written —
`{generated_at: now, source: "ml_prediction", stocks}`. -/
def save_cache_doc (now : ℚ) (stocks : List (String × PredRecord)) : CacheDoc :=
  { generated_at := .iso now, source := "ml_prediction", stocks := stocks }

/-- The file-system effect of `_save_cache`: a whole-document overwrite of
the live cache file, independent of its prior content. -/
def write_cache (_prior : Option CacheDoc) (doc : CacheDoc) : Option CacheDoc :=
  some doc

/-! ## The orchestrator `run_predictions_for_all_sectors`

External calls (the market-data fetch, the feature steps, the forecast
model) happen outside the repository sources; the orchestrator observes,
per ticker, whether `fetch_historical_data` raised or what list of OHLCV
records it returned, whether `model.fit` / `model.predict_daily` raised,
and the forecast produced.  These observations form the environment of
the embedded run. -/

/-- One monthly OHLCV record as the orchestrator consumes it (it reads
only the `Date` ordering and the `Close` column). -/
structure OHLCVRec where
  date : ℕ
  close : ℚ
deriving DecidableEq

/-- Outcome of `await fetch_historical_data(symbol)`: an exception, or a
list of records (an empty list covers the falsy `not raw_data` case). -/
inductive FetchResult where
  | raises
  | ok (records : List OHLCVRec)
deriving DecidableEq

/-- Per-ticker behaviour of the external collaborators during one batch
run. -/
structure TickerEnv where
  fetch : FetchResult
  fitRaises : Bool
  predictRaises : Bool
  predictions : List DPred
  metrics : List (String × ℚ)
  reasoning : String
deriving DecidableEq

/-- One `progress_callback(symbol, pct, message)` invocation; each
constructor is one call site of the orchestrator, carrying the symbol
and percentage it reports. -/
inductive Ev where
  | start (symbol : String) (pct : ℕ)
  | skip (symbol : String) (pct : ℕ)
  | fetchStep (symbol : String) (pct : ℕ)
  | featStep (symbol : String) (pct : ℕ)
  | trainStep (symbol : String) (pct : ℕ)
  | forecastStep (symbol : String) (pct : ℕ)
  | errStep (symbol : String) (pct : ℕ)
  | allDone (pct : ℕ) (succeeded : ℕ)
deriving DecidableEq

/-- The percentage an event reports. -/
def Ev.pct : Ev → ℕ
  | .start _ p => p
  | .skip _ p => p
  | .fetchStep _ p => p
  | .featStep _ p => p
  | .trainStep _ p => p
  | .forecastStep _ p => p
  | .errStep _ p => p
  | .allDone p _ => p

/-- The symbol a per-ticker event reports (`none` for the final
`"DONE"` event). -/
def Ev.symbol : Ev → Option String
  | .start s _ => some s
  | .skip s _ => some s
  | .fetchStep s _ => some s
  | .featStep s _ => some s
  | .trainStep s _ => some s
  | .forecastStep s _ => some s
  | .errStep s _ => some s
  | .allDone _ _ => none

/-- The working set `stocks` (a Python dict keyed by symbol, in insertion
order). -/
abbrev SMap := List (String × PredRecord)

/-- `symbol in stocks`. -/
def containsKey (m : SMap) (k : String) : Bool := m.any (fun p => p.1 == k)

/-- `stocks[symbol] = record`: replace in place when the key exists,
else append (Python dict assignment preserving insertion order). -/
def insertKey (m : SMap) (k : String) (v : PredRecord) : SMap :=
  if containsKey m k then m.map (fun p => if p.1 == k then (k, v) else p)
  else m ++ [(k, v)]

/-- Stable insertion by date (ascending), embedding
`df.sort_values('Date')`. -/
def insertByDate (r : OHLCVRec) : List OHLCVRec → List OHLCVRec
  | [] => [r]
  | x :: xs => if x.date ≤ r.date then x :: insertByDate r xs else r :: x :: xs

def sortByDate : List OHLCVRec → List OHLCVRec
  | [] => []
  | r :: rs => insertByDate r (sortByDate rs)

/-- `float(df['Close'].iloc[-1])` after the date sort (the records are
nonempty whenever this is evaluated, since length ≥ 200 was checked). -/
def lastClose (records : List OHLCVRec) : ℚ :=
  match (sortByDate records).getLast? with
  | some r => r.close
  | none => 0

/-- State threaded through the batch loop: the working set and the last
document `_save_cache` wrote this run (`none` before any save). -/
structure RunState where
  stocks : SMap
  file : Option CacheDoc
deriving DecidableEq

/-- The body of the `for i, symbol in enumerate(PREDICTION_ORDER)` loop:
progress events in emission order, the skip guard, the fetch /
insufficient-data guard (`continue` without any progress event), the
guarded model steps (any exception emits one error event at the
ticker's base percentage and continues), record assembly and the
incremental `_save_cache`. -/
def processTicker (env : String → TickerEnv) (now : ℚ) (force_fresh : Bool)
    (total i : ℕ) (symbol : String) (st : RunState) : RunState × List Ev :=
  let pct := i * 100 / total
  let e := env symbol
  if ¬force_fresh ∧ containsKey st.stocks symbol then
    (st, [.start symbol pct, .skip symbol (pct + 18)])
  else
    match e.fetch with
    | .raises =>
      (st, [.start symbol pct, .fetchStep symbol (pct + 5), .errStep symbol pct])
    | .ok records =>
      if records.length < 200 then
        (st, [.start symbol pct, .fetchStep symbol (pct + 5)])
      else if e.fitRaises then
        (st, [.start symbol pct, .fetchStep symbol (pct + 5), .featStep symbol (pct + 8),
              .trainStep symbol (pct + 10), .errStep symbol pct])
      else if e.predictRaises then
        (st, [.start symbol pct, .fetchStep symbol (pct + 5), .featStep symbol (pct + 8),
              .trainStep symbol (pct + 10), .forecastStep symbol (pct + 15),
              .errStep symbol pct])
      else if e.predictions.isEmpty then
        (st, [.start symbol pct, .fetchStep symbol (pct + 5), .featStep symbol (pct + 8),
              .trainStep symbol (pct + 10), .forecastStep symbol (pct + 15)])
      else
        let record : PredRecord :=
          { symbol := symbol
            sector := lookupSector symbol
            current_price := lastClose records
            daily_predictions := e.predictions.take 21
            prediction_reasoning := e.reasoning
            metrics := e.metrics }
        let stocks := insertKey st.stocks symbol record
        ({ stocks := stocks, file := write_cache st.file (save_cache_doc now stocks) },
         [.start symbol pct, .fetchStep symbol (pct + 5), .featStep symbol (pct + 8),
          .trainStep symbol (pct + 10), .forecastStep symbol (pct + 15)])

/-- The registry iteration from index `i` over the remaining symbols. -/
def runFrom (env : String → TickerEnv) (now : ℚ) (force_fresh : Bool) (total : ℕ) :
    ℕ → RunState → List String → RunState × List Ev
  | _, st, [] => (st, [])
  | i, st, s :: rest =>
    let p := processTicker env now force_fresh total i s st
    let q := runFrom env now force_fresh total (i + 1) p.1 rest
    (q.1, p.2 ++ q.2)

/-- The initial working set: empty under `force_fresh`, else
`dict(existing["stocks"])` from the tiered `load_cached_predictions`. -/
def initialStocks (st : Store) (force_fresh : Bool) : SMap :=
  if force_fresh then []
  else
    match load_cached_predictions st with
    | some doc => if ¬doc.stocks.isEmpty then doc.stocks else []
    | none => []

/-- `run_predictions_for_all_sectors`: seed the working set, iterate the
registry in order, then emit the final 100% `"DONE"` event naming
`len(stocks)` of `total` successful. -/
def run_predictions_for_all_sectors (env : String → TickerEnv) (st : Store)
    (now : ℚ) (force_fresh : Bool) : RunState × List Ev :=
  let init : RunState := { stocks := initialStocks st force_fresh, file := none }
  let r := runFrom env now force_fresh PREDICTION_ORDER.length 0 init PREDICTION_ORDER
  (r.1, r.2 ++ [.allDone 100 r.1.stocks.length])

/-! ## The sentiment adjustment model (`sentiment_model.py`)

Its float arithmetic is embedded over `ℝ` (the spec's stated non-goal:
floating-point need not be reproduced).  News dates reach the model
already reduced to the elapsed-days number the code computes from
`datetime.now()`, so `detect_events` is parameterised by that pre-parsed
form. -/

/-- The `date` field of a news item as `detect_events` consumes it:
an ISO-dated item gives the signed day difference to now, an item whose
string has no date shape is treated as dated now (difference `0`), and a
`strptime` failure also yields `0`. -/
inductive DateField where
  | valid (daysAgo : ℤ)
  | notDateLike
  | malformed
deriving DecidableEq

/-- `days_elapsed` before the `max(0, ·)` clamp. -/
def DateField.daysElapsed : DateField → ℤ
  | .valid d => d
  | .notDateLike => 0
  | .malformed => 0

/-- A news item (`{title, date, source, url}`); only the fields event
detection reads. -/
structure NewsItem where
  title : String
  date : DateField
  source : String
deriving DecidableEq

/-- Case-insensitive substring test `kw in title.lower()` (keywords in
the static table are lowercase). -/
def charsContain (pat : List Char) : List Char → Bool
  | [] => pat.isEmpty
  | c :: cs => pat.isPrefixOf (c :: cs) || charsContain pat cs

def containsSub (s pat : String) : Bool := charsContain pat.toList s.toLower.toList

def titleMatches (title : String) (keywords : List String) : Bool :=
  keywords.any (fun kw => containsSub title kw)

/-- One archetype of the static `EVENT_IMPACTS` table. -/
structure EventConfig where
  mean_impact : ℝ
  half_life : ℝ
  keywords : List String

/-- `EVENT_IMPACTS`, in the table (dict insertion) order the detection
loop scans. -/
noncomputable def EVENT_IMPACTS : List (String × EventConfig) :=
  [("dividend_announcement",
    ⟨0.025, 7, ["dividend", "cash dividend", "bonus", "payout"]⟩),
   ("earnings_beat",
    ⟨0.05, 14, ["profit increase", "earnings growth", "record profit", "eps beat"]⟩),
   ("expansion",
    ⟨0.04, 30, ["expansion", "new plant", "new project", "capacity increase"]⟩),
   ("acquisition",
    ⟨0.08, 21, ["acquire", "acquisition", "merger", "takeover"]⟩),
   ("contract_win",
    ⟨0.035, 14, ["awarded", "contract", "wins", "secured deal"]⟩),
   ("earnings_miss",
    ⟨-0.06, 14, ["profit decline", "earnings drop", "loss", "revenue decline"]⟩),
   ("regulatory_issue",
    ⟨-0.08, 21, ["investigation", "secp", "inquiry", "violation", "penalty", "fine"]⟩),
   ("management_issue",
    ⟨-0.05, 14, ["ceo resign", "fraud", "scandal", "management change"]⟩),
   ("sector_headwind",
    ⟨-0.03, 30, ["sector decline", "industry downturn", "competition"]⟩)]

/-- A detected event (`detect_events` output element). -/
structure EventMatch where
  type : String
  mean_impact : ℝ
  half_life : ℝ
  days_elapsed : ℤ
  source : String
  title : String

/-- `detect_events`: per news item the first matching archetype in table
order wins (the inner loop breaks), `days_elapsed` is clamped to `≥ 0`,
the source title is truncated to 100 characters; an item matching no
archetype contributes nothing. -/
noncomputable def detect_events (news_items : List NewsItem) : List EventMatch :=
  news_items.filterMap (fun news =>
    (EVENT_IMPACTS.find? (fun ec => titleMatches news.title ec.2.keywords)).map
      (fun ec =>
        { type := ec.1
          mean_impact := ec.2.mean_impact
          half_life := ec.2.half_life
          days_elapsed := max 0 news.date.daysElapsed
          source := news.source
          title := news.title.take 100 }))

/-- `exponential_decay`: `Impact_0 * e^(-ln 2 / half_life * t)`, zero for
a non-positive half-life. -/
noncomputable def exponential_decay (initial_impact days_elapsed half_life : ℝ) : ℝ :=
  if half_life ≤ 0 then 0
  else initial_impact * Real.exp (-(Real.log 2 / half_life) * days_elapsed)

/-- `confidence_weight`: the quadratic penalty `confidence ** 2`. -/
def confidence_weight (confidence : ℝ) : ℝ := confidence ^ 2

/-- `sigmoid_cap`: `max_val * (2 / (1 + e^(-3x/max_val)) - 1)`. -/
noncomputable def sigmoid_cap (x max_val : ℝ) : ℝ :=
  max_val * (2 / (1 + Real.exp (-3 * x / max_val)) - 1)

/-- The dict `calculate_sentiment_adjustment` receives
(`get_stock_sentiment` output); `none` fields model missing keys, read
through `.get` with defaults 0 / 0.5 / `[]`. -/
structure SentimentAnalysis where
  sentiment_score : Option ℝ
  confidence : Option ℝ
  news_items : Option (List NewsItem)

/-- One per-day adjustment, generic in the number field (`ℝ` when
produced by `calculate_sentiment_adjustment`; the event-impact labels of
the code are `f"{type}: {pct}%"` strings, embedded by their event
type). -/
structure AdjustmentDay (α : Type) where
  day : ℕ
  raw_adjustment : α
  capped_adjustment : α
  percentage : α
  event_impacts : List String
  sentiment_component : α
  confidence_weight : α
deriving DecidableEq

/-- `calculate_sentiment_adjustment`: for each day 1..n, sum the decayed
event impacts above the 0.1% threshold, add the pure-sentiment decay
(`score*0.05`, 45-day half-life, decayed over `day` alone), weight by
`confidence²`, and soft-cap at ±15%. -/
noncomputable def calculate_sentiment_adjustment (sa : SentimentAnalysis)
    (prediction_days : ℕ) : List (AdjustmentDay ℝ) :=
  let sentiment_score := sa.sentiment_score.getD 0
  let confidence := sa.confidence.getD 0.5
  let news_items := sa.news_items.getD []
  let events := detect_events news_items
  let base_weight := confidence_weight confidence
  (List.range' 1 prediction_days).map (fun (day : ℕ) =>
    let contribs := events.filterMap (fun event =>
      let total_days : ℝ := ((event.days_elapsed : ℝ) + (day : ℝ))
      let decayed := exponential_decay event.mean_impact total_days event.half_life
      if 0.001 < |decayed| then some (decayed, event.type) else none)
    let event_adjustment := (contribs.map Prod.fst).sum
    let event_reasons := contribs.map Prod.snd
    let sentiment_decay := exponential_decay (sentiment_score * 0.05) (day : ℝ) 45
    let total_raw := (event_adjustment + sentiment_decay) * base_weight
    let capped := sigmoid_cap total_raw 0.15
    { day := day
      raw_adjustment := total_raw
      capped_adjustment := capped
      percentage := round3 (capped * 100)
      event_impacts := event_reasons
      sentiment_component := round3 (sentiment_decay * base_weight * 100)
      confidence_weight := round3 base_weight })

/-- A base daily prediction dict as `apply_adjustments_to_predictions`
reads and copies it; optional fields model keys that may be absent
(`current_price` is read with the base price as default; the last three
are the keys the adjusted copy adds). -/
structure BasePred (α : Type) where
  day : ℕ
  predicted_price : α
  upside_potential : α
  confidence : α
  current_price : Option α
  base_predicted_price : Option α
  sentiment_adjustment_pct : Option α
  sentiment_events : Option (List String)
deriving DecidableEq

/-- `apply_adjustments_to_predictions`: pass everything through when
either list is empty; otherwise per prediction find its day's
adjustment (first match), and when its capped magnitude exceeds 0.05%
rewrite the price (rounded to 2 decimals), keep the unadjusted price,
attach the percentage and up to three event labels, and recompute the
upside against the prediction's `current_price` (defaulting to the
unadjusted price) when that is positive. -/
def adjustOne {α : Type} [LinearOrderedField α] [FloorRing α]
    (adjustments : List (AdjustmentDay α)) (pred : BasePred α) : BasePred α :=
  match adjustments.find? (fun a => a.day == pred.day) with
  | none => pred
  | some adj =>
    if 0.0005 < |adj.capped_adjustment| then
      let base_price := pred.predicted_price
      let new_price := round2 (base_price * (1 + adj.capped_adjustment))
      let current := pred.current_price.getD base_price
      { pred with
        predicted_price := new_price
        base_predicted_price := some base_price
        sentiment_adjustment_pct := some adj.percentage
        sentiment_events := some (adj.event_impacts.take 3)
        upside_potential :=
          if 0 < current then round2 ((new_price / current - 1) * 100)
          else pred.upside_potential }
    else pred

def apply_adjustments_to_predictions {α : Type} [LinearOrderedField α] [FloorRing α]
    (base_predictions : List (BasePred α)) (adjustments : List (AdjustmentDay α)) :
    List (BasePred α) :=
  if base_predictions.isEmpty ∨ adjustments.isEmpty then base_predictions
  else base_predictions.map (adjustOne adjustments)

/-! ## The sentiment cache read path (`sentiment_analyzer.py`) -/

/-- `STOCK_COMPANIES`, reduced to the primary company name
(`company_names[0]`), which is the only element the read path uses. -/
def STOCK_COMPANIES : List (String × String) :=
  [("LUCK", "Lucky Cement"), ("HBL", "Habib Bank"), ("UBL", "United Bank"),
   ("MCB", "MCB Bank"), ("OGDC", "OGDC"), ("PPL", "Pakistan Petroleum"),
   ("PSO", "Pakistan State Oil"), ("ENGRO", "Engro"), ("FFC", "Fauji Fertilizer"),
   ("FATIMA", "Fatima Fertilizer"), ("HUBC", "Hub Power"), ("SYS", "Systems Limited"),
   ("TRG", "TRG Pakistan"), ("NESTLE", "Nestle Pakistan"), ("MARI", "Mari Petroleum"),
   ("MEBL", "Meezan Bank"), ("SEARL", "Searle Pakistan"), ("PIOC", "Pioneer Cement"),
   ("DGKC", "DG Khan Cement"), ("MLCF", "Maple Leaf Cement"), ("KEL", "K-Electric"),
   ("NBP", "National Bank"), ("ABL", "Allied Bank"), ("BAFL", "Bank Alfalah"),
   ("BAHL", "Bank Al Habib"), ("POL", "Pakistan Oilfields"), ("ATRL", "Attock Refinery"),
   ("EFERT", "Engro Fertilizers")]

/-- `STOCK_COMPANIES.get(symbol, (symbol,))[0]`. -/
def companyName (symbol : String) : String :=
  (STOCK_COMPANIES.lookup symbol).getD symbol

/-- `CACHE_DURATION_HOURS` — the 4-hour freshness window; it is enforced
only by the cache *writer* (`_load_cached_news` / `_save_to_cache`),
never by `get_stock_sentiment`. -/
def CACHE_DURATION_HOURS : ℚ := 4

/-- A cached sentiment result (one `{SYMBOL}_news.json` document);
`analyzed_at` is the write instant in hours. -/
structure SentimentResult where
  symbol : String
  company : String
  news_count : ℕ
  news_items : List NewsItem
  sentiment_score : ℝ
  signal : String
  signal_simple : String
  confidence : ℝ
  key_events : List String
  summary : String
  model : String
  analyzed_at : ℚ

/-- The per-ticker sentiment cache file: missing, unreadable, or a parsed
result document. -/
inductive SentCacheFile where
  | absent
  | corrupt
  | present (r : SentimentResult)

/-- The externally observable effects the analyzer module can perform:
reading a per-ticker cache file, or a live classifier (Groq) call. -/
inductive SentEffect where
  | readCacheFile
  | classifyLive
deriving DecidableEq

/-- The neutral placeholder `get_stock_sentiment` returns when no cache
entry is usable. -/
def neutral_placeholder (symbol company : String) (now : ℚ) : SentimentResult :=
  { symbol := symbol
    company := company
    news_count := 0
    news_items := []
    sentiment_score := 0
    signal := "NEUTRAL"
    signal_simple := "NEUTRAL"
    confidence := 0
    key_events := []
    summary := "No cached news data available for this stock"
    model := "cache-only"
    analyzed_at := now }

/-- `get_stock_sentiment(symbol, use_cache=True)`: uppercase the symbol,
resolve the company name, read **only** the cache file (its unread
`use_cache` argument is kept), return the parsed document as-is, and
fall back to the neutral placeholder when the file is missing or
unreadable.  The returned trace lists the external effects performed. -/
def get_stock_sentiment (symbol : String) (_use_cache : Bool)
    (cache : SentCacheFile) (now : ℚ) : SentimentResult × List SentEffect :=
  let sym := symbol.toUpper
  let company := companyName sym
  match cache with
  | .present r => (r, [.readCacheFile])
  | .corrupt => (neutral_placeholder sym company now, [.readCacheFile])
  | .absent => (neutral_placeholder sym company now, [.readCacheFile])

/-- Bridge from a cached sentiment result to the dict shape
`calculate_sentiment_adjustment` reads (all three keys present). -/
def toAnalysisInput (r : SentimentResult) : SentimentAnalysis :=
  { sentiment_score := some r.sentiment_score
    confidence := some r.confidence
    news_items := some r.news_items }

/-! ## Concrete fixtures for counterexamples and witnesses -/

/-- A seed-file fixture: one seed prediction for LUCK. -/
def luckSeed : SeedData :=
  { current_price := some 100
    daily_predictions := [⟨1, 105, 5, 3/5⟩]
    prediction_reasoning := ""
    metrics := [] }

/-- A store whose live cache file is missing but whose seed directory
holds a seed file for LUCK. -/
def storeSeedOnly : Store :=
  { liveCache := .absent
    seedDir := some [("LUCK", .ok luckSeed)] }

/-- A store with a parsed live cache document holding one LUCK record. -/
def luckRecord : PredRecord :=
  { symbol := "LUCK", sector := "Cement", current_price := 100
    daily_predictions := [⟨1, 105, 5, 3/5⟩], prediction_reasoning := "", metrics := [] }

def storeLiveLuck : Store :=
  { liveCache := .present ⟨.iso 0, "ml_prediction", [("LUCK", luckRecord)]⟩
    seedDir := none }

/-- An empty file system. -/
def storeEmpty : Store := { liveCache := .absent, seedDir := none }

/-- A ticker environment where every external call raises. -/
def envAllRaise : String → TickerEnv :=
  fun _ => { fetch := .raises, fitRaises := false, predictRaises := false
             predictions := [], metrics := [], reasoning := "" }

/-- A ticker environment where every fetch returns too little history
(10 records). -/
def envShortHistory : String → TickerEnv :=
  fun _ => { fetch := .ok (List.replicate 10 ⟨0, 1⟩), fitRaises := false
             predictRaises := false, predictions := [], metrics := [], reasoning := "" }

/-- LUCK's fetch raises; every other fetch returns too little history. -/
def envLuckRaises : String → TickerEnv :=
  fun s => if s = "LUCK" then envAllRaise s else envShortHistory s

/-! ## Claim theorems -/

/-- C3: `is_cache_fresh(doc, max_age_hours=24)` is false when the
document is absent/empty, when `generated_at` is missing, falsy, the
seed sentinel, or unparseable; on a parsed timestamp it is true iff
`now - generated_at < 24` hours, with the 24h boundary exclusive: a
25-hour-old document is not fresh, a 1-hour-old document is. -/
theorem C3_is_cache_fresh_contract (doc : Option CacheDoc) (now : ℚ) :
    (doc = none → is_cache_fresh doc now 24 = false) ∧
    (∀ c, doc = some c →
      (c.generated_at = .absent ∨ c.generated_at = .emptyStr ∨
        c.generated_at = .seedData ∨ (∃ s, c.generated_at = .malformed s)) →
      is_cache_fresh doc now 24 = false) ∧
    (∀ c t, doc = some c → c.generated_at = .iso t →
      (is_cache_fresh doc now 24 = true ↔ now - t < 24)) ∧
    (∀ c t, doc = some c → c.generated_at = .iso t → now - t = 25 →
      is_cache_fresh doc now 24 = false) ∧
    (∀ c t, doc = some c → c.generated_at = .iso t → now - t = 1 →
      is_cache_fresh doc now 24 = true) := by
  refine ⟨fun h => by simp [h, is_cache_fresh], ?_, ?_, ?_, ?_⟩
  · rintro ⟨g, src, stk⟩ rfl (h | h | h | ⟨s, h⟩) <;>
      simp only at h <;> subst h <;> simp [is_cache_fresh]
  · rintro ⟨g, src, stk⟩ t rfl h
    simp only at h; subst h
    simp [is_cache_fresh]
  · rintro ⟨g, src, stk⟩ t rfl h h25
    simp only at h; subst h
    simp only [is_cache_fresh, decide_eq_false_iff_not]
    linarith
  · rintro ⟨g, src, stk⟩ t rfl h h1
    simp only at h; subst h
    simp only [is_cache_fresh, decide_eq_true_eq]
    linarith

/-- C3 witness: a document stamped 1 hour ago is fresh, one stamped 25
hours ago is not, and a seed-sentinel document is not. -/
theorem C3_witness :
    is_cache_fresh (some ⟨.iso 0, "ml_prediction", []⟩) 1 24 = true ∧
    is_cache_fresh (some ⟨.iso 0, "ml_prediction", []⟩) 25 24 = false ∧
    is_cache_fresh (some ⟨.seedData, "pre_computed", []⟩) 1 24 = false :=
  ⟨(C3_is_cache_fresh_contract _ 1).2.2.2.2 _ 0 rfl rfl (by norm_num),
   (C3_is_cache_fresh_contract _ 25).2.2.2.1 _ 0 rfl rfl (by norm_num),
   (C3_is_cache_fresh_contract _ 1).2.1 _ rfl (Or.inr (Or.inr (Or.inl rfl)))⟩

/-- C7 counterexample: the document `_save_cache` writes carries
`source = "ml_prediction"`, not `source = "live"` as claimed. -/
theorem C7_counterexample :
    (save_cache_doc 0 []).source = "ml_prediction" ∧
    (save_cache_doc 0 []).source ≠ "live" :=
  ⟨rfl, by decide⟩

/-- C7 amended: `_save_cache` writes a whole new document whose
`generated_at` is the current time, whose `source` field is
`"ml_prediction"` (the live-tier tag), and whose `stocks` map equals
the passed map, completely replacing the prior live document whatever
it was. -/
theorem C7_save_cache_overwrites (now : ℚ) (m : SMap) (prior : Option CacheDoc) :
    (save_cache_doc now m).generated_at = .iso now ∧
    (save_cache_doc now m).source = "ml_prediction" ∧
    (save_cache_doc now m).stocks = m ∧
    write_cache prior (save_cache_doc now m) = some (save_cache_doc now m) :=
  ⟨rfl, rfl, rfl, rfl⟩

/-- C8: `exponential_decay(impact, t, h) = impact · e^(-ln2·t/h)` for
`h > 0`; at `t = h` it is exactly half the impact; at `t = 5h` its
magnitude is at most 3.2% of the impact; and the concrete per-day event
contribution with `mean_impact = 0.025`, `half_life = 7`,
`days_elapsed = 0` and forecast day 7 is exactly `0.0125`. -/
theorem C8_exponential_decay (impact t h : ℝ) (hh : 0 < h) :
    exponential_decay impact t h = impact * Real.exp (-(Real.log 2 / h) * t) ∧
    exponential_decay impact h h = impact / 2 ∧
    |exponential_decay impact (5 * h) h| ≤ 32 / 1000 * |impact| ∧
    exponential_decay 0.025 ((0 : ℝ) + 7) 7 = 0.0125 := by
  have h1 : ¬ h ≤ 0 := not_le.mpr hh
  have hne : h ≠ 0 := ne_of_gt hh
  refine ⟨by simp [exponential_decay, h1], ?_, ?_, ?_⟩
  · simp only [exponential_decay, h1, if_false]
    have e1 : -(Real.log 2 / h) * h = -Real.log 2 := by field_simp
    rw [e1, Real.exp_neg, Real.exp_log two_pos]
    ring
  · simp only [exponential_decay, h1, if_false]
    have e1 : -(Real.log 2 / h) * (5 * h) = ((5 : ℕ) : ℝ) * -Real.log 2 := by
      field_simp; ring
    rw [e1, Real.exp_nat_mul, Real.exp_neg, Real.exp_log two_pos, abs_mul]
    have e2 : |((2 : ℝ)⁻¹) ^ (5 : ℕ)| = 1 / 32 := by norm_num
    rw [e2]
    nlinarith [abs_nonneg impact]
  · have h7 : ¬ (7 : ℝ) ≤ 0 := by norm_num
    simp only [exponential_decay, h7, if_false]
    have e1 : -(Real.log 2 / 7) * ((0 : ℝ) + 7) = -Real.log 2 := by norm_num
    rw [e1, Real.exp_neg, Real.exp_log two_pos]
    norm_num

/-- C8 witness: at half-life 7 (positive) the day-7 decayed impact of a
0.025-impact event with no elapsed days is 0.0125 (1.25%). -/
theorem C8_witness :
    (0 : ℝ) < 7 ∧ exponential_decay 0.025 ((0 : ℝ) + 7) 7 = 0.0125 :=
  ⟨by norm_num, (C8_exponential_decay 0.025 7 7 (by norm_num)).2.2.2⟩

/-- C9: `get_stock_sentiment` performs exactly one cache-file read and
never a live classification call; a parsed cache document is returned
as-is whatever its age (the 4-hour TTL is a writer-side concern); with
no cache file it returns, without failing, the neutral placeholder
(`score 0`, `signal NEUTRAL`, `confidence 0`, `news_count 0`). -/
theorem C9_sentiment_read_only (symbol : String) (uc : Bool)
    (cache : SentCacheFile) (now : ℚ) :
    (get_stock_sentiment symbol uc cache now).2 = [.readCacheFile] ∧
    SentEffect.classifyLive ∉ (get_stock_sentiment symbol uc cache now).2 ∧
    (∀ r, cache = .present r → (get_stock_sentiment symbol uc cache now).1 = r) ∧
    (cache = .absent →
      (get_stock_sentiment symbol uc cache now).1 =
        neutral_placeholder symbol.toUpper (companyName symbol.toUpper) now ∧
      (get_stock_sentiment symbol uc cache now).1.sentiment_score = 0 ∧
      (get_stock_sentiment symbol uc cache now).1.signal = "NEUTRAL" ∧
      (get_stock_sentiment symbol uc cache now).1.confidence = 0 ∧
      (get_stock_sentiment symbol uc cache now).1.news_count = 0) := by
  cases cache <;>
    simp [get_stock_sentiment, neutral_placeholder]

/-- C9 witness: with no cache file for LUCK the read returns the neutral
placeholder fields and performed only the cache read. -/
theorem C9_witness :
    (get_stock_sentiment "LUCK" true .absent 0).1.confidence = 0 ∧
    (get_stock_sentiment "LUCK" true .absent 0).1.sentiment_score = 0 ∧
    (get_stock_sentiment "LUCK" true .absent 0).2 = [.readCacheFile] :=
  ⟨((C9_sentiment_read_only "LUCK" true .absent 0).2.2.2 rfl).2.2.2.1,
   ((C9_sentiment_read_only "LUCK" true .absent 0).2.2.2 rfl).2.1,
   (C9_sentiment_read_only "LUCK" true .absent 0).1⟩

/-- The soft cap rewritten over the common denominator:
`m · (1-y)/(1+y)` with `y = e^(-3x/m)`. -/
theorem sigmoid_cap_eq (x m : ℝ) :
    sigmoid_cap x m =
      m * ((1 - Real.exp (-3 * x / m)) / (1 + Real.exp (-3 * x / m))) := by
  have hy := Real.exp_pos (-3 * x / m)
  have h1 : (1 : ℝ) + Real.exp (-3 * x / m) ≠ 0 := by positivity
  unfold sigmoid_cap
  have h2 : 2 / (1 + Real.exp (-3 * x / m)) - 1 =
      (1 - Real.exp (-3 * x / m)) / (1 + Real.exp (-3 * x / m)) := by
    field_simp
    ring
  rw [h2]

/-- The soft cap is an odd function of its input. -/
theorem sigmoid_cap_odd (x m : ℝ) : sigmoid_cap (-x) m = -sigmoid_cap x m := by
  have hy := Real.exp_pos (-3 * x / m)
  have key : Real.exp (-3 * -x / m) = (Real.exp (-3 * x / m))⁻¹ := by
    rw [← Real.exp_neg]
    congr 1
    ring
  unfold sigmoid_cap
  rw [key]
  have h1 : (1 : ℝ) + Real.exp (-3 * x / m) ≠ 0 := by positivity
  have h2 : Real.exp (-3 * x / m) ≠ 0 := ne_of_gt hy
  have h3 : (1 : ℝ) + (Real.exp (-3 * x / m))⁻¹ ≠ 0 := by positivity
  field_simp
  ring

/-- The soft cap is strictly increasing for a positive ceiling. -/
theorem sigmoid_cap_strictMono {m : ℝ} (hm : 0 < m) :
    StrictMono (fun x => sigmoid_cap x m) := by
  intro a b hab
  simp only [sigmoid_cap]
  have hexp : Real.exp (-3 * b / m) < Real.exp (-3 * a / m) := by
    apply Real.exp_lt_exp.mpr
    apply div_lt_div_of_pos_right ?_ hm
    linarith
  have hpa : (0 : ℝ) < 1 + Real.exp (-3 * a / m) := by positivity
  have hpb : (0 : ℝ) < 1 + Real.exp (-3 * b / m) := by positivity
  have h2 : 2 / (1 + Real.exp (-3 * a / m)) < 2 / (1 + Real.exp (-3 * b / m)) :=
    div_lt_div_of_pos_left two_pos hpb (by linarith)
  apply mul_lt_mul_of_pos_left ?_ hm
  linarith

/-- The soft cap never reaches the ceiling in magnitude. -/
theorem sigmoid_cap_bounded (x : ℝ) {m : ℝ} (hm : 0 < m) : |sigmoid_cap x m| < m := by
  have hy := Real.exp_pos (-3 * x / m)
  have h1 : (0 : ℝ) < 1 + Real.exp (-3 * x / m) := by positivity
  rw [sigmoid_cap_eq, abs_mul, abs_of_pos hm, abs_div, abs_of_pos h1,
    mul_lt_iff_lt_one_right hm, div_lt_one h1, abs_lt]
  constructor <;> linarith [abs_nonneg (1 - Real.exp (-3 * x / m))]

/-- In the near-linear region (`3x ≤ 0.09·m`) the soft cap is within 5%
of `(3/2)·x` — the function's slope at 0 is `3/2`, not `1`. -/
theorem sigmoid_cap_nearLinear {m x : ℝ} (hm : 0 < m) (hx0 : 0 ≤ x)
    (hxs : 3 * x ≤ 9 / 100 * m) :
    |sigmoid_cap x m - 3 / 2 * x| ≤ 1 / 20 * (3 / 2 * x) := by
  have hm' : m ≠ 0 := ne_of_gt hm
  set t : ℝ := 3 * x / m with htdef
  have harg : -3 * x / m = -t := by rw [htdef]; ring
  have ht0 : 0 ≤ t := by
    rw [htdef]
    exact div_nonneg (by linarith) hm.le
  have ht : t ≤ 9 / 100 := by
    rw [htdef, div_le_iff₀ hm]
    linarith
  have hq : m * t = 3 * x := by
    rw [htdef]
    field_simp
  set y : ℝ := Real.exp (-t) with hydef
  have hy0 : 0 < y := Real.exp_pos _
  have hy1 : 1 - t ≤ y := by
    have h := Real.add_one_le_exp (-t)
    rw [← hydef] at h
    linarith
  have hy2 : y * (1 + t) ≤ 1 := by
    have h1 := Real.add_one_le_exp t
    have h2 : y * (1 + t) ≤ y * Real.exp t :=
      mul_le_mul_of_nonneg_left (by linarith) hy0.le
    have h3 : y * Real.exp t = 1 := by
      rw [hydef, ← Real.exp_add]
      simp
    linarith
  have hylow : 91 / 100 ≤ y := by linarith
  have h1y : (0 : ℝ) < 1 + y := by linarith
  have hcap : sigmoid_cap x m = m * (1 - y) / (1 + y) := by
    rw [sigmoid_cap_eq, harg, ← hydef, ← mul_div_assoc]
  have hupper : m * (1 - y) / (1 + y) ≤ 63 / 40 * x := by
    rw [div_le_iff₀ h1y]
    have ha : m * (1 - y) ≤ m * t := mul_le_mul_of_nonneg_left (by linarith) hm.le
    have hb : 0 ≤ x * (63 / 40 * (1 + y) - 3) := mul_nonneg hx0 (by linarith)
    nlinarith [ha, hb, hq]
  have hlower : 57 / 40 * x ≤ m * (1 - y) / (1 + y) := by
    rw [le_div_iff₀ h1y]
    have ha : m * (y * t) ≤ m * (1 - y) :=
      mul_le_mul_of_nonneg_left (by nlinarith) hm.le
    have he : m * (y * t) = 3 * x * y := by
      rw [show m * (y * t) = m * t * y from by ring, hq]
    have hb : 0 ≤ x * (63 / 40 * y - 57 / 40) := mul_nonneg hx0 (by linarith)
    nlinarith [ha, he, hb]
  rw [hcap, abs_le]
  constructor <;> linarith

/-- Every per-day adjustment's capped value is the soft cap of its raw
value at the pipeline's ±15% ceiling. -/
theorem calc_capped_is_sigmoid (sa : SentimentAnalysis) (n : ℕ)
    (adj : AdjustmentDay ℝ) (h : adj ∈ calculate_sentiment_adjustment sa n) :
    adj.capped_adjustment = sigmoid_cap adj.raw_adjustment 0.15 := by
  simp only [calculate_sentiment_adjustment, List.mem_map] at h
  obtain ⟨day, _, rfl⟩ := h
  rfl

/-- C6 counterexample: at `x = 0.004` with the pipeline ceiling
`m = 0.15` the input is small relative to the ceiling (ratio 1/37.5,
inside the near-linear region `3x ≤ 0.09·m`), yet the soft cap's value
is not within 5% of `x` — it exceeds `1.05·x`, because the function is
near `1.5·x` for small inputs. -/
theorem C6_counterexample :
    ¬ (|sigmoid_cap (1 / 250) (3 / 20) - 1 / 250| ≤ 1 / 20 * (1 / 250)) := by
  have harg : -3 * (1 / 250 : ℝ) / (3 / 20) = -(2 / 25) := by norm_num
  have hy0 : 0 < Real.exp (-(2 / 25 : ℝ)) := Real.exp_pos _
  have h3 : Real.exp (-(2 / 25 : ℝ)) * Real.exp (2 / 25) = 1 := by
    rw [← Real.exp_add]
    norm_num
  have hy2 : Real.exp (-(2 / 25 : ℝ)) * (1 + 2 / 25) ≤ 1 := by
    have h1 := Real.add_one_le_exp (2 / 25 : ℝ)
    have h2 : Real.exp (-(2 / 25 : ℝ)) * (1 + 2 / 25) ≤
        Real.exp (-(2 / 25 : ℝ)) * Real.exp (2 / 25) :=
      mul_le_mul_of_nonneg_left (by linarith) hy0.le
    linarith
  have hyle : Real.exp (-(2 / 25 : ℝ)) ≤ 25 / 27 := by linarith
  have h1y : (0 : ℝ) < 1 + Real.exp (-(2 / 25 : ℝ)) := by positivity
  have hcap : sigmoid_cap (1 / 250) (3 / 20) =
      (3 / 20) * (1 - Real.exp (-(2 / 25 : ℝ))) / (1 + Real.exp (-(2 / 25 : ℝ))) := by
    rw [sigmoid_cap_eq, harg, ← mul_div_assoc]
  have hgt : (21 / 5000 : ℝ) < sigmoid_cap (1 / 250) (3 / 20) := by
    rw [hcap, lt_div_iff₀ h1y]
    nlinarith [hyle]
  intro habs
  have h := (abs_le.mp habs).2
  linarith

/-- C6 amended: for a positive ceiling `m`, the soft cap is odd, strictly
increasing, of magnitude strictly below `m` for every input, and in the
near-linear region small inputs are mapped to within 5% of `(3/2)·x`
(the slope at 0 is 3/2, so the original "within 5% of `x`" fails); the
adjustment pipeline applies it with ceiling 0.15. -/
theorem C6_sigmoid_cap_amended (m x : ℝ) (hm : 0 < m) :
    sigmoid_cap (-x) m = -sigmoid_cap x m ∧
    StrictMono (fun z => sigmoid_cap z m) ∧
    |sigmoid_cap x m| < m ∧
    (0 ≤ x → 3 * x ≤ 9 / 100 * m →
      |sigmoid_cap x m - 3 / 2 * x| ≤ 1 / 20 * (3 / 2 * x)) ∧
    (∀ sa n adj, adj ∈ calculate_sentiment_adjustment sa n →
      adj.capped_adjustment = sigmoid_cap adj.raw_adjustment 0.15) :=
  ⟨sigmoid_cap_odd x m, sigmoid_cap_strictMono hm, sigmoid_cap_bounded x hm,
   fun hx0 hxs => sigmoid_cap_nearLinear hm hx0 hxs,
   fun sa n adj h => calc_capped_is_sigmoid sa n adj h⟩

/-- C6 witness: at the pipeline ceiling 0.15 and small input 0.004 the
amended bounds hold concretely. -/
theorem C6_witness :
    |sigmoid_cap (1 / 250) (3 / 20) - 3 / 2 * (1 / 250)| ≤ 1 / 20 * (3 / 2 * (1 / 250)) ∧
    |sigmoid_cap (1 / 250) (3 / 20)| < 3 / 20 :=
  ⟨(C6_sigmoid_cap_amended (3 / 20) (1 / 250) (by norm_num)).2.2.2.1
      (by norm_num) (by norm_num),
   (C6_sigmoid_cap_amended (3 / 20) (1 / 250) (by norm_num)).2.2.1⟩

/-- The soft cap fixes 0. -/
theorem sigmoid_cap_zero (m : ℝ) : sigmoid_cap 0 m = 0 := by
  simp [sigmoid_cap]
  norm_num

/-- Evaluation of `round2` at integer values. -/
theorem round2_intValue {α : Type} [LinearOrderedField α] [FloorRing α] (n : ℤ) :
    round2 ((n : α)) = n := by
  unfold round2
  rw [show ((n : α) * 100) = ((n * 100 : ℤ) : α) by push_cast; ring, round_intCast]
  push_cast
  exact mul_div_cancel_right₀ _ (by norm_num)

/-- `adjustOne` is the identity when no adjustment matches the day. -/
theorem adjustOne_none {α : Type} [LinearOrderedField α] [FloorRing α]
    (adjs : List (AdjustmentDay α)) (pred : BasePred α)
    (h : adjs.find? (fun a => a.day == pred.day) = none) :
    adjustOne adjs pred = pred := by
  unfold adjustOne
  rw [h]

/-- `adjustOne` is the identity on a negligible capped adjustment. -/
theorem adjustOne_small {α : Type} [LinearOrderedField α] [FloorRing α]
    (adjs : List (AdjustmentDay α)) (pred : BasePred α) (adj : AdjustmentDay α)
    (h : adjs.find? (fun a => a.day == pred.day) = some adj)
    (hm : ¬ 0.0005 < |adj.capped_adjustment|) :
    adjustOne adjs pred = pred := by
  unfold adjustOne
  rw [h]
  exact if_neg hm

/-- `adjustOne` on a non-negligible capped adjustment, written out. -/
theorem adjustOne_big {α : Type} [LinearOrderedField α] [FloorRing α]
    (adjs : List (AdjustmentDay α)) (pred : BasePred α) (adj : AdjustmentDay α)
    (h : adjs.find? (fun a => a.day == pred.day) = some adj)
    (hm : 0.0005 < |adj.capped_adjustment|) :
    adjustOne adjs pred =
      { pred with
        predicted_price := round2 (pred.predicted_price * (1 + adj.capped_adjustment))
        base_predicted_price := some pred.predicted_price
        sentiment_adjustment_pct := some adj.percentage
        sentiment_events := some (adj.event_impacts.take 3)
        upside_potential :=
          if 0 < pred.current_price.getD pred.predicted_price then
            round2 ((round2 (pred.predicted_price * (1 + adj.capped_adjustment)) /
              pred.current_price.getD pred.predicted_price - 1) * 100)
          else pred.upside_potential } := by
  unfold adjustOne
  rw [h]
  exact if_pos hm

/-- Positional access to the adjusted list when the adjustment list is
nonempty. -/
theorem apply_adjustments_get {α : Type} [LinearOrderedField α] [FloorRing α]
    (preds : List (BasePred α)) (adjs : List (AdjustmentDay α)) (i : ℕ)
    (pred : BasePred α) (hp : preds.get? i = some pred) (hae : adjs ≠ []) :
    (apply_adjustments_to_predictions preds adjs).get? i
      = some (adjustOne adjs pred) := by
  have hpe : preds.isEmpty = false := by
    cases preds with
    | nil => simp at hp
    | cons a l => rfl
  have hae' : adjs.isEmpty = false := by
    cases adjs with
    | nil => exact absurd rfl hae
    | cons a l => rfl
  unfold apply_adjustments_to_predictions
  rw [if_neg (by simp [hpe, hae']), List.get?_map, hp]
  rfl

/-- The full positional contract of `apply_adjustments_to_predictions`:
adjusted fields for a non-negligible matching adjustment, pass-through
otherwise. -/
theorem apply_adjustments_spec {α : Type} [LinearOrderedField α] [FloorRing α]
    (preds : List (BasePred α)) (adjs : List (AdjustmentDay α))
    (i : ℕ) (pred : BasePred α) (hp : preds.get? i = some pred) :
    (∀ adj, adjs.find? (fun a => a.day == pred.day) = some adj →
      0.0005 < |adj.capped_adjustment| →
      ∃ p2, (apply_adjustments_to_predictions preds adjs).get? i = some p2 ∧
        p2.predicted_price = round2 (pred.predicted_price * (1 + adj.capped_adjustment)) ∧
        p2.base_predicted_price = some pred.predicted_price ∧
        p2.sentiment_adjustment_pct = some adj.percentage ∧
        p2.sentiment_events = some (adj.event_impacts.take 3) ∧
        (∀ evs, p2.sentiment_events = some evs → evs.length ≤ 3) ∧
        p2.upside_potential =
          (if 0 < pred.current_price.getD pred.predicted_price then
            round2 ((p2.predicted_price / pred.current_price.getD pred.predicted_price - 1)
              * 100)
          else pred.upside_potential) ∧
        p2.day = pred.day ∧ p2.confidence = pred.confidence ∧
        p2.current_price = pred.current_price) ∧
    (∀ adj, adjs.find? (fun a => a.day == pred.day) = some adj →
      ¬ 0.0005 < |adj.capped_adjustment| →
      (apply_adjustments_to_predictions preds adjs).get? i = some pred) ∧
    (adjs.find? (fun a => a.day == pred.day) = none →
      (apply_adjustments_to_predictions preds adjs).get? i = some pred) := by
  refine ⟨?_, ?_, ?_⟩
  · intro adj hfind hmag
    have hae : adjs ≠ [] := by
      intro h
      subst h
      simp at hfind
    rw [apply_adjustments_get preds adjs i pred hp hae,
      adjustOne_big adjs pred adj hfind hmag]
    refine ⟨_, rfl, rfl, rfl, rfl, rfl, ?_, rfl, rfl, rfl, rfl⟩
    intro evs hevs
    have h3 : adj.event_impacts.take 3 = evs := by simpa using hevs
    rw [← h3]
    exact List.length_take_le 3 adj.event_impacts
  · intro adj hfind hmag
    have hae : adjs ≠ [] := by
      intro h
      subst h
      simp at hfind
    rw [apply_adjustments_get preds adjs i pred hp hae,
      adjustOne_small adjs pred adj hfind hmag]
  · intro hfind
    by_cases hae : adjs = []
    · subst hae
      simp only [apply_adjustments_to_predictions]
      simpa using hp
    · rw [apply_adjustments_get preds adjs i pred hp hae,
        adjustOne_none adjs pred hfind]

/-- C10: with classifier confidence 0 (notably the neutral placeholder
returned when no sentiment cache exists) the quadratic confidence
weight annihilates every contribution: each per-day adjustment has
`raw_adjustment = 0` and `capped_adjustment = 0` whatever the news
items, events or sentiment score, and applying the adjustments returns
every base daily prediction unchanged. -/
theorem C10_zero_confidence_neutral (sa : SentimentAnalysis)
    (hconf : sa.confidence = some 0) (n : ℕ) :
    (∀ adj ∈ calculate_sentiment_adjustment sa n,
      adj.raw_adjustment = 0 ∧ adj.capped_adjustment = 0) ∧
    (∀ preds : List (BasePred ℝ),
      apply_adjustments_to_predictions preds (calculate_sentiment_adjustment sa n)
        = preds) := by
  have hmem : ∀ adj ∈ calculate_sentiment_adjustment sa n,
      adj.raw_adjustment = 0 ∧ adj.capped_adjustment = 0 := by
    intro adj h
    simp only [calculate_sentiment_adjustment, List.mem_map] at h
    obtain ⟨day, _, rfl⟩ := h
    constructor
    · simp [hconf, confidence_weight]
    · simp [hconf, confidence_weight, sigmoid_cap_zero]
  refine ⟨hmem, ?_⟩
  intro preds
  unfold apply_adjustments_to_predictions
  split
  · rfl
  · refine Eq.trans (List.map_congr_left ?_) (List.map_id preds)
    intro pred _
    cases hfind : (calculate_sentiment_adjustment sa n).find?
        (fun a => a.day == pred.day) with
    | none => exact adjustOne_none _ pred hfind
    | some adj =>
      have hz := (hmem adj (List.mem_of_find?_eq_some hfind)).2
      exact adjustOne_small _ pred adj hfind (by rw [hz, abs_zero]; norm_num)

/-- C10 witness: applying the adjustments computed from the analyzer's
neutral placeholder (confidence 0) to a concrete base prediction
returns it unchanged. -/
theorem C10_witness :
    apply_adjustments_to_predictions
      [(⟨1, 100, 5, 4 / 5, none, none, none, none⟩ : BasePred ℝ)]
      (calculate_sentiment_adjustment
        (toAnalysisInput (get_stock_sentiment "LUCK" true .absent 0).1) 21)
      = [⟨1, 100, 5, 4 / 5, none, none, none, none⟩] :=
  (C10_zero_confidence_neutral
      (toAnalysisInput (get_stock_sentiment "LUCK" true .absent 0).1) rfl 21).2
    [⟨1, 100, 5, 4 / 5, none, none, none, none⟩]

/-- The concrete base prediction used for C5: day 1, predicted price 100,
stored upside 100% (so the forecast's anchor current price was 50), no
`current_price` key in the dict — the shape of the spec's Daily
Prediction. -/
def c5pred : BasePred ℚ := ⟨1, 100, 100, 4 / 5, none, none, none, none⟩

/-- The concrete day-1 adjustment used for C5: capped adjustment +5%. -/
def c5adj : AdjustmentDay ℚ := ⟨1, 1 / 20, 1 / 20, 5, ["dividend_announcement"], 0, 1⟩

/-- C5 counterexample: with a +5% capped day-1 adjustment, the day-1
prediction (price 100, stored upside 100%, hence forecast anchor price
50) is rewritten to price 105 with upside 5 — the upside the code
computes against the unadjusted predicted price, because the daily
prediction dict has no `current_price` key.  Relative to the forecast's
anchor current price 50 the claim instead demands
`round2((105/50 - 1)·100) = 110`. -/
theorem C5_counterexample :
    ∃ p2, (apply_adjustments_to_predictions [c5pred] [c5adj]).get? 0 = some p2 ∧
      p2.predicted_price = 105 ∧
      p2.upside_potential = 5 ∧
      (5 : ℚ) ≠ round2 ((105 / 50 - 1) * 100) := by
  have hmag : (0.0005 : ℚ) < |c5adj.capped_adjustment| := by
    rw [show c5adj.capped_adjustment = 1 / 20 from rfl,
      abs_of_pos (by norm_num : (0 : ℚ) < 1 / 20)]
    norm_num
  obtain ⟨p2, hget, hprice, _, _, _, _, hup, _⟩ :=
    (apply_adjustments_spec [c5pred] [c5adj] 0 c5pred rfl).1 c5adj rfl hmag
  have hprice' : p2.predicted_price = 105 := by
    rw [hprice, show c5pred.predicted_price * (1 + c5adj.capped_adjustment)
      = ((105 : ℤ) : ℚ) by norm_num [c5pred, c5adj], round2_intValue]
    norm_num
  have hup' : p2.upside_potential = 5 := by
    rw [hup, show c5pred.current_price.getD c5pred.predicted_price = 100 from rfl,
      if_pos (by norm_num : (0 : ℚ) < 100), hprice',
      show ((105 : ℚ) / 100 - 1) * 100 = ((5 : ℤ) : ℚ) by norm_num, round2_intValue]
    norm_num
  refine ⟨p2, hget, hprice', hup', ?_⟩
  rw [show ((105 : ℚ) / 50 - 1) * 100 = ((110 : ℤ) : ℚ) by norm_num, round2_intValue]
  norm_num

/-- C5 amended: for every base prediction list and adjustment list, a
prediction whose matching day's capped adjustment exceeds 0.05% in
magnitude is replaced by a copy whose price is the old price times
`(1 + capped)` rounded to 2 decimals, with the unadjusted price kept in
`base_predicted_price`, at most three contributing event labels
attached, and the upside recomputed against the prediction's own
`current_price` field when that is present and positive — defaulting to
the unadjusted predicted price when the field is absent, and left
unchanged when non-positive; predictions with negligible or no matching
adjustment pass through unchanged. -/
theorem C5_apply_adjustments_amended {α : Type} [LinearOrderedField α] [FloorRing α]
    (preds : List (BasePred α)) (adjs : List (AdjustmentDay α))
    (i : ℕ) (pred : BasePred α) (hp : preds.get? i = some pred) :
    (∀ adj, adjs.find? (fun a => a.day == pred.day) = some adj →
      0.0005 < |adj.capped_adjustment| →
      ∃ p2, (apply_adjustments_to_predictions preds adjs).get? i = some p2 ∧
        p2.predicted_price = round2 (pred.predicted_price * (1 + adj.capped_adjustment)) ∧
        p2.base_predicted_price = some pred.predicted_price ∧
        p2.sentiment_adjustment_pct = some adj.percentage ∧
        p2.sentiment_events = some (adj.event_impacts.take 3) ∧
        (∀ evs, p2.sentiment_events = some evs → evs.length ≤ 3) ∧
        p2.upside_potential =
          (if 0 < pred.current_price.getD pred.predicted_price then
            round2 ((p2.predicted_price / pred.current_price.getD pred.predicted_price - 1)
              * 100)
          else pred.upside_potential) ∧
        p2.day = pred.day ∧ p2.confidence = pred.confidence ∧
        p2.current_price = pred.current_price) ∧
    (∀ adj, adjs.find? (fun a => a.day == pred.day) = some adj →
      ¬ 0.0005 < |adj.capped_adjustment| →
      (apply_adjustments_to_predictions preds adjs).get? i = some pred) ∧
    (adjs.find? (fun a => a.day == pred.day) = none →
      (apply_adjustments_to_predictions preds adjs).get? i = some pred) :=
  apply_adjustments_spec preds adjs i pred hp

/-- C5 witness: on the concrete day-1 prediction and +5% adjustment the
amended contract evaluates: price 105, preserved base price 100, upside
5 (anchored to the unadjusted price since `current_price` is absent). -/
theorem C5_witness :
    ∃ p2, (apply_adjustments_to_predictions [c5pred] [c5adj]).get? 0 = some p2 ∧
      p2.predicted_price = 105 ∧
      p2.base_predicted_price = some 100 ∧
      p2.upside_potential = 5 := by
  have hmag : (0.0005 : ℚ) < |c5adj.capped_adjustment| := by
    rw [show c5adj.capped_adjustment = 1 / 20 from rfl,
      abs_of_pos (by norm_num : (0 : ℚ) < 1 / 20)]
    norm_num
  obtain ⟨p2, hget, hprice, hbase, _, _, _, hup, _⟩ :=
    (C5_apply_adjustments_amended [c5pred] [c5adj] 0 c5pred rfl).1 c5adj rfl hmag
  have hprice' : p2.predicted_price = 105 := by
    rw [hprice, show c5pred.predicted_price * (1 + c5adj.capped_adjustment)
      = ((105 : ℤ) : ℚ) by norm_num [c5pred, c5adj], round2_intValue]
    norm_num
  refine ⟨p2, hget, hprice', ?_, ?_⟩
  · rw [hbase]
    rfl
  · rw [hup, show c5pred.current_price.getD c5pred.predicted_price = 100 from rfl,
      if_pos (by norm_num : (0 : ℚ) < 100), hprice',
      show ((105 : ℚ) / 100 - 1) * 100 = ((5 : ℤ) : ℚ) by norm_num, round2_intValue]
    norm_num

/-! ## Association-list facts about the working set -/

/-- Replacing the entry for one key does not change which keys are
present. -/
theorem containsKey_mapUpdate (m : SMap) (k2 : String) (v : PredRecord) (k : String) :
    containsKey (m.map (fun p => if p.1 == k2 then (k2, v) else p)) k
      = containsKey m k := by
  induction m with
  | nil => rfl
  | cons hd tl ih =>
    simp only [containsKey, List.map_cons, List.any_cons] at ih ⊢
    by_cases h : (hd.1 == k2) = true
    · rw [if_pos h]
      have e : hd.1 = k2 := eq_of_beq h
      rw [ih]
      congr 1
      rw [e]
    · rw [if_neg h]
      rw [ih]

theorem containsKey_append_single (m : SMap) (k2 : String) (v : PredRecord) (k : String) :
    containsKey (m ++ [(k2, v)]) k = (containsKey m k || (k2 == k)) := by
  unfold containsKey
  rw [List.any_append]
  simp

/-- Dict assignment never removes a key. -/
theorem containsKey_insertKey_mono (m : SMap) (k2 : String) (v : PredRecord)
    (k : String) (h : containsKey m k = true) :
    containsKey (insertKey m k2 v) k = true := by
  unfold insertKey
  by_cases hc : containsKey m k2 = true
  · rw [if_pos hc, containsKey_mapUpdate]
    exact h
  · rw [if_neg hc, containsKey_append_single, h]
    rfl

/-- Dict assignment to a different key preserves key presence. -/
theorem containsKey_insertKey_other (m : SMap) (k2 : String) (v : PredRecord)
    (k : String) (hne : k2 ≠ k) :
    containsKey (insertKey m k2 v) k = containsKey m k := by
  unfold insertKey
  by_cases hc : containsKey m k2 = true
  · rw [if_pos hc, containsKey_mapUpdate]
  · rw [if_neg hc, containsKey_append_single,
      show (k2 == k) = false from beq_eq_false_iff_ne.mpr hne, Bool.or_false]

theorem lookup_mapUpdate (m : SMap) (k2 : String) (v : PredRecord) (k : String)
    (hne : k2 ≠ k) :
    (m.map (fun p => if p.1 == k2 then (k2, v) else p)).lookup k = m.lookup k := by
  induction m with
  | nil => rfl
  | cons hd tl ih =>
    obtain ⟨k1, v1⟩ := hd
    simp only [List.map_cons]
    by_cases h : ((k1, v1).1 == k2) = true
    · rw [if_pos h]
      have e : k1 = k2 := eq_of_beq h
      have hk : (k == k2) = false := beq_eq_false_iff_ne.mpr (Ne.symm hne)
      simp only [List.lookup, hk, e]
      exact ih
    · rw [if_neg h]
      simp only [List.lookup]
      cases k == k1 with
      | true => rfl
      | false => exact ih

theorem lookup_append_single (m : SMap) (k2 : String) (v : PredRecord) (k : String)
    (hne : k2 ≠ k) :
    (m ++ [(k2, v)]).lookup k = m.lookup k := by
  induction m with
  | nil =>
    simp only [List.nil_append, List.lookup,
      beq_eq_false_iff_ne.mpr (Ne.symm hne)]
  | cons hd tl ih =>
    obtain ⟨k1, v1⟩ := hd
    simp only [List.cons_append, List.lookup]
    cases k == k1 with
    | true => rfl
    | false => exact ih

/-- Dict assignment to a different key preserves that key's value. -/
theorem lookup_insertKey_other (m : SMap) (k2 : String) (v : PredRecord)
    (k : String) (hne : k2 ≠ k) :
    (insertKey m k2 v).lookup k = m.lookup k := by
  unfold insertKey
  by_cases hc : containsKey m k2 = true
  · rw [if_pos hc]
    exact lookup_mapUpdate m k2 v k hne
  · rw [if_neg hc]
    exact lookup_append_single m k2 v k hne

/-! ## Per-iteration case analysis of the batch loop -/

/-- The seven possible outcomes of one loop iteration: skip; fetch
exception; insufficient history (no error event); fit exception;
predict exception; empty forecast; success with incremental save. -/
theorem processTicker_spec (env : String → TickerEnv) (now : ℚ) (force : Bool)
    (total i : ℕ) (s : String) (st : RunState) :
    (¬force = true ∧ containsKey st.stocks s = true) ∧
      processTicker env now force total i s st =
        (st, [Ev.start s (i * 100 / total), Ev.skip s (i * 100 / total + 18)]) ∨
    (env s).fetch = FetchResult.raises ∧
      processTicker env now force total i s st =
        (st, [Ev.start s (i * 100 / total), Ev.fetchStep s (i * 100 / total + 5),
              Ev.errStep s (i * 100 / total)]) ∨
    (∃ records, (env s).fetch = FetchResult.ok records ∧ records.length < 200) ∧
      processTicker env now force total i s st =
        (st, [Ev.start s (i * 100 / total), Ev.fetchStep s (i * 100 / total + 5)]) ∨
    processTicker env now force total i s st =
      (st, [Ev.start s (i * 100 / total), Ev.fetchStep s (i * 100 / total + 5),
            Ev.featStep s (i * 100 / total + 8), Ev.trainStep s (i * 100 / total + 10),
            Ev.errStep s (i * 100 / total)]) ∨
    processTicker env now force total i s st =
      (st, [Ev.start s (i * 100 / total), Ev.fetchStep s (i * 100 / total + 5),
            Ev.featStep s (i * 100 / total + 8), Ev.trainStep s (i * 100 / total + 10),
            Ev.forecastStep s (i * 100 / total + 15), Ev.errStep s (i * 100 / total)]) ∨
    processTicker env now force total i s st =
      (st, [Ev.start s (i * 100 / total), Ev.fetchStep s (i * 100 / total + 5),
            Ev.featStep s (i * 100 / total + 8), Ev.trainStep s (i * 100 / total + 10),
            Ev.forecastStep s (i * 100 / total + 15)]) ∨
    ∃ rec, processTicker env now force total i s st =
      ({ stocks := insertKey st.stocks s rec,
         file := some (save_cache_doc now (insertKey st.stocks s rec)) },
       [Ev.start s (i * 100 / total), Ev.fetchStep s (i * 100 / total + 5),
        Ev.featStep s (i * 100 / total + 8), Ev.trainStep s (i * 100 / total + 10),
        Ev.forecastStep s (i * 100 / total + 15)]) := by
  simp only [processTicker]
  by_cases h1 : ¬force = true ∧ containsKey st.stocks s = true
  · rw [if_pos h1]
    exact Or.inl ⟨h1, rfl⟩
  · rw [if_neg h1]
    cases (env s).fetch with
    | raises =>
      dsimp only
      exact Or.inr (Or.inl ⟨rfl, rfl⟩)
    | ok records =>
      dsimp only
      by_cases h2 : records.length < 200
      · rw [if_pos h2]
        exact Or.inr (Or.inr (Or.inl ⟨⟨records, rfl, h2⟩, rfl⟩))
      · rw [if_neg h2]
        by_cases h3 : (env s).fitRaises = true
        · rw [if_pos h3]
          exact Or.inr (Or.inr (Or.inr (Or.inl rfl)))
        · rw [if_neg h3]
          by_cases h4 : (env s).predictRaises = true
          · rw [if_pos h4]
            exact Or.inr (Or.inr (Or.inr (Or.inr (Or.inl rfl))))
          · rw [if_neg h4]
            by_cases h5 : (env s).predictions.isEmpty = true
            · rw [if_pos h5]
              exact Or.inr (Or.inr (Or.inr (Or.inr (Or.inr (Or.inl rfl)))))
            · rw [if_neg h5]
              exact Or.inr (Or.inr (Or.inr (Or.inr (Or.inr (Or.inr ⟨_, rfl⟩)))))

/-- Every event an iteration emits names that iteration's symbol. -/
theorem processTicker_symbol_eq (env : String → TickerEnv) (now : ℚ) (force : Bool)
    (total i : ℕ) (s : String) (st : RunState) :
    ∀ e ∈ (processTicker env now force total i s st).2, e.symbol = some s := by
  rcases processTicker_spec env now force total i s st with
    ⟨_, h⟩ | ⟨_, h⟩ | ⟨_, h⟩ | h | h | h | ⟨rec, h⟩ <;>
    rw [h] <;> simp [Ev.symbol]

/-- One iteration either leaves the state unchanged or inserts its own
symbol. -/
theorem processTicker_state (env : String → TickerEnv) (now : ℚ) (force : Bool)
    (total i : ℕ) (s : String) (st : RunState) :
    (processTicker env now force total i s st).1 = st ∨
    ∃ rec, (processTicker env now force total i s st).1.stocks
      = insertKey st.stocks s rec := by
  rcases processTicker_spec env now force total i s st with
    ⟨_, h⟩ | ⟨_, h⟩ | ⟨_, h⟩ | h | h | h | ⟨rec, h⟩
  · exact Or.inl (by rw [h])
  · exact Or.inl (by rw [h])
  · exact Or.inl (by rw [h])
  · exact Or.inl (by rw [h])
  · exact Or.inl (by rw [h])
  · exact Or.inl (by rw [h])
  · exact Or.inr ⟨rec, by rw [h]⟩

theorem processTicker_contains_mono (env : String → TickerEnv) (now : ℚ)
    (force : Bool) (total i : ℕ) (s : String) (st : RunState) (k : String)
    (h : containsKey st.stocks k = true) :
    containsKey (processTicker env now force total i s st).1.stocks k = true := by
  rcases processTicker_state env now force total i s st with hst | ⟨rec, hst⟩
  · rw [hst]; exact h
  · rw [hst]; exact containsKey_insertKey_mono st.stocks s rec k h

theorem processTicker_contains_other (env : String → TickerEnv) (now : ℚ)
    (force : Bool) (total i : ℕ) (s : String) (st : RunState) (k : String)
    (hne : s ≠ k) :
    containsKey (processTicker env now force total i s st).1.stocks k
      = containsKey st.stocks k := by
  rcases processTicker_state env now force total i s st with hst | ⟨rec, hst⟩
  · rw [hst]
  · rw [hst]; exact containsKey_insertKey_other st.stocks s rec k hne

theorem processTicker_lookup_other (env : String → TickerEnv) (now : ℚ)
    (force : Bool) (total i : ℕ) (s : String) (st : RunState) (k : String)
    (hne : s ≠ k) :
    ((processTicker env now force total i s st).1.stocks.lookup k)
      = st.stocks.lookup k := by
  rcases processTicker_state env now force total i s st with hst | ⟨rec, hst⟩
  · rw [hst]
  · rw [hst]; exact lookup_insertKey_other st.stocks s rec k hne

/-- A skipped iteration (Resume mode, symbol already in the working set)
leaves the state unchanged and emits the start and skip events. -/
theorem processTicker_skip_eq (env : String → TickerEnv) (now : ℚ) (force : Bool)
    (total i : ℕ) (s : String) (st : RunState)
    (h : ¬force = true ∧ containsKey st.stocks s = true) :
    processTicker env now force total i s st =
      (st, [Ev.start s (i * 100 / total), Ev.skip s (i * 100 / total + 18)]) := by
  simp only [processTicker]
  rw [if_pos h]

/-- A fetch exception emits one error event at the base percentage and
leaves the state unchanged. -/
theorem processTicker_raises_eq (env : String → TickerEnv) (now : ℚ) (force : Bool)
    (total i : ℕ) (s : String) (st : RunState)
    (h1 : ¬(¬force = true ∧ containsKey st.stocks s = true))
    (h2 : (env s).fetch = FetchResult.raises) :
    processTicker env now force total i s st =
      (st, [Ev.start s (i * 100 / total), Ev.fetchStep s (i * 100 / total + 5),
            Ev.errStep s (i * 100 / total)]) := by
  simp only [processTicker]
  rw [if_neg h1, h2]

/-- Insufficient history (fewer than 200 records) is skipped silently:
no error event, state unchanged. -/
theorem processTicker_short_eq (env : String → TickerEnv) (now : ℚ) (force : Bool)
    (total i : ℕ) (s : String) (st : RunState) (records : List OHLCVRec)
    (h1 : ¬(¬force = true ∧ containsKey st.stocks s = true))
    (h2 : (env s).fetch = FetchResult.ok records) (h3 : records.length < 200) :
    processTicker env now force total i s st =
      (st, [Ev.start s (i * 100 / total), Ev.fetchStep s (i * 100 / total + 5)]) := by
  simp only [processTicker]
  rw [if_neg h1, h2]
  dsimp only
  rw [if_pos h3]

/-- In Force mode every iteration reaches the fetch step. -/
theorem processTicker_fetch_of_force (env : String → TickerEnv) (now : ℚ)
    (total i : ℕ) (s : String) (st : RunState) :
    ∃ p, Ev.fetchStep s p ∈ (processTicker env now true total i s st).2 := by
  rcases processTicker_spec env now true total i s st with
    ⟨⟨hforce, _⟩, _⟩ | ⟨_, h⟩ | ⟨_, h⟩ | h | h | h | ⟨rec, h⟩
  · exact absurd rfl hforce
  all_goals
    exact ⟨i * 100 / total + 5, by rw [h]; simp⟩

/-! ## Invariants of the registry iteration -/

/-- Every iterated symbol gets its starting progress event. -/
theorem runFrom_start_mem (env : String → TickerEnv) (now : ℚ) (force : Bool)
    (total : ℕ) :
    ∀ (l : List String) (i : ℕ) (st : RunState) (s : String), s ∈ l →
      ∃ p, Ev.start s p ∈ (runFrom env now force total i st l).2 := by
  intro l
  induction l with
  | nil =>
    intro i st s hs
    exact absurd hs (List.not_mem_nil s)
  | cons hd tl ih =>
    intro i st s hs
    simp only [runFrom]
    rcases List.mem_cons.mp hs with rfl | hs2
    · refine ⟨i * 100 / total, List.mem_append_left _ ?_⟩
      rcases processTicker_spec env now force total i s st with
        ⟨_, h⟩ | ⟨_, h⟩ | ⟨_, h⟩ | h | h | h | ⟨rec, h⟩ <;> rw [h] <;> simp
    · obtain ⟨p, hp⟩ := ih (i + 1) (processTicker env now force total i hd st).1 s hs2
      exact ⟨p, List.mem_append_right _ hp⟩

/-- Every per-ticker event of the iteration names an iterated symbol. -/
theorem runFrom_symbol_mem (env : String → TickerEnv) (now : ℚ) (force : Bool)
    (total : ℕ) :
    ∀ (l : List String) (i : ℕ) (st : RunState) (e : Ev),
      e ∈ (runFrom env now force total i st l).2 → ∃ s ∈ l, e.symbol = some s := by
  intro l
  induction l with
  | nil =>
    intro i st e he
    simp [runFrom] at he
  | cons hd tl ih =>
    intro i st e he
    simp only [runFrom] at he
    rcases List.mem_append.mp he with h1 | h2
    · exact ⟨hd, List.mem_cons_self hd tl,
        processTicker_symbol_eq env now force total i hd st e h1⟩
    · obtain ⟨s, hs, hsym⟩ := ih (i + 1) _ e h2
      exact ⟨s, List.mem_cons_of_mem hd hs, hsym⟩

/-- A symbol that is not iterated keeps its presence status. -/
theorem runFrom_contains_notin (env : String → TickerEnv) (now : ℚ) (force : Bool)
    (total : ℕ) (k : String) :
    ∀ (l : List String) (i : ℕ) (st : RunState), k ∉ l →
      containsKey (runFrom env now force total i st l).1.stocks k
        = containsKey st.stocks k := by
  intro l
  induction l with
  | nil =>
    intro i st _
    rfl
  | cons hd tl ih =>
    intro i st hk
    simp only [runFrom]
    have hne : hd ≠ k := fun h => hk (h ▸ List.mem_cons_self hd tl)
    rw [ih (i + 1) _ (fun h => hk (List.mem_cons_of_mem hd h)),
      processTicker_contains_other env now force total i hd st k hne]

/-- Resume-mode retention: a symbol already in the working set keeps its
record verbatim, is never fetched, and gets a skip event when
iterated. -/
theorem runFrom_retains (env : String → TickerEnv) (now : ℚ) (total : ℕ)
    (k : String) :
    ∀ (l : List String) (i : ℕ) (st : RunState), containsKey st.stocks k = true →
      ((runFrom env now false total i st l).1.stocks.lookup k
        = st.stocks.lookup k) ∧
      containsKey (runFrom env now false total i st l).1.stocks k = true ∧
      (∀ p, Ev.fetchStep k p ∉ (runFrom env now false total i st l).2) ∧
      (k ∈ l → ∃ p, Ev.skip k p ∈ (runFrom env now false total i st l).2) := by
  intro l
  induction l with
  | nil =>
    intro i st hc
    refine ⟨rfl, hc, by simp [runFrom], ?_⟩
    intro h
    exact absurd h (List.not_mem_nil k)
  | cons hd tl ih =>
    intro i st hc
    by_cases hhd : hd = k
    · subst hhd
      have hskip := processTicker_skip_eq env now false total i hd st ⟨by simp, hc⟩
      simp only [runFrom]
      rw [hskip]
      obtain ⟨h1, h2, h3, h4⟩ := ih (i + 1) st hc
      refine ⟨h1, h2, ?_, ?_⟩
      · intro p hp
        rcases List.mem_append.mp hp with hl | hr
        · simp at hl
        · exact h3 p hr
      · intro _
        exact ⟨i * 100 / total + 18, List.mem_append_left _ (by simp)⟩
    · have hc2 : containsKey (processTicker env now false total i hd st).1.stocks k
          = true := by
        rw [processTicker_contains_other env now false total i hd st k hhd]
        exact hc
      obtain ⟨h1, h2, h3, h4⟩ := ih (i + 1) (processTicker env now false total i hd st).1 hc2
      simp only [runFrom]
      refine ⟨?_, h2, ?_, ?_⟩
      · rw [h1, processTicker_lookup_other env now false total i hd st k hhd]
      · intro p hp
        rcases List.mem_append.mp hp with hl | hr
        · have hsym := processTicker_symbol_eq env now false total i hd st _ hl
          simp [Ev.symbol] at hsym
          exact hhd hsym.symm
        · exact h3 p hr
      · intro hmem
        rcases List.mem_cons.mp hmem with h | h
        · exact absurd h.symm hhd
        · obtain ⟨p, hp⟩ := h4 h
          exact ⟨p, List.mem_append_right _ hp⟩

/-- Force mode reaches the fetch step for every iterated symbol. -/
theorem runFrom_force_fetch (env : String → TickerEnv) (now : ℚ) (total : ℕ) :
    ∀ (l : List String) (i : ℕ) (st : RunState) (s : String), s ∈ l →
      ∃ p, Ev.fetchStep s p ∈ (runFrom env now true total i st l).2 := by
  intro l
  induction l with
  | nil =>
    intro i st s hs
    exact absurd hs (List.not_mem_nil s)
  | cons hd tl ih =>
    intro i st s hs
    simp only [runFrom]
    rcases List.mem_cons.mp hs with rfl | hs2
    · obtain ⟨p, hp⟩ := processTicker_fetch_of_force env now total i s st
      exact ⟨p, List.mem_append_left _ hp⟩
    · obtain ⟨p, hp⟩ := ih (i + 1) _ s hs2
      exact ⟨p, List.mem_append_right _ hp⟩

/-- A ticker whose fetch raises gets an error event and is never added to
the working set, and the iteration continues. -/
theorem runFrom_raises_isolation (env : String → TickerEnv) (now : ℚ)
    (force : Bool) (total : ℕ) (k : String)
    (hkf : (env k).fetch = FetchResult.raises) :
    ∀ (l : List String) (i : ℕ) (st : RunState), l.Nodup → k ∈ l →
      (force = true ∨ containsKey st.stocks k = false) →
      (∃ p, Ev.errStep k p ∈ (runFrom env now force total i st l).2) ∧
      containsKey (runFrom env now force total i st l).1.stocks k
        = containsKey st.stocks k := by
  intro l
  induction l with
  | nil =>
    intro i st _ hk _
    exact absurd hk (List.not_mem_nil k)
  | cons hd tl ih =>
    intro i st hnd hk hg
    simp only [runFrom]
    by_cases hhd : hd = k
    · subst hhd
      have hguard : ¬(¬force = true ∧ containsKey st.stocks hd = true) := by
        rintro ⟨hf, hcc⟩
        rcases hg with h | h
        · exact hf h
        · simp [h] at hcc
      have heq := processTicker_raises_eq env now force total i hd st hguard hkf
      rw [heq]
      have hnotl : hd ∉ tl := (List.nodup_cons.mp hnd).1
      constructor
      · exact ⟨i * 100 / total, List.mem_append_left _ (by simp)⟩
      · rw [runFrom_contains_notin env now force total hd tl (i + 1) _ hnotl]
    · have hk2 : k ∈ tl := by
        rcases List.mem_cons.mp hk with h | h
        · exact absurd h.symm hhd
        · exact h
      have hg2 : force = true ∨
          containsKey (processTicker env now force total i hd st).1.stocks k = false := by
        rcases hg with h | h
        · exact Or.inl h
        · right
          rw [processTicker_contains_other env now force total i hd st k hhd]
          exact h
      obtain ⟨⟨p, hp⟩, hcon⟩ := ih (i + 1) _ (List.nodup_cons.mp hnd).2 hk2 hg2
      constructor
      · exact ⟨p, List.mem_append_right _ hp⟩
      · rw [hcon, processTicker_contains_other env now force total i hd st k hhd]

/-- A ticker with insufficient history is skipped silently: no error
event anywhere in the run names it, and it is never added to the
working set. -/
theorem runFrom_short_isolation (env : String → TickerEnv) (now : ℚ)
    (force : Bool) (total : ℕ) (k : String) (records : List OHLCVRec)
    (hkf : (env k).fetch = FetchResult.ok records) (hlen : records.length < 200) :
    ∀ (l : List String) (i : ℕ) (st : RunState), l.Nodup → k ∈ l →
      (force = true ∨ containsKey st.stocks k = false) →
      (∀ p, Ev.errStep k p ∉ (runFrom env now force total i st l).2) ∧
      containsKey (runFrom env now force total i st l).1.stocks k
        = containsKey st.stocks k := by
  intro l
  induction l with
  | nil =>
    intro i st _ hk _
    exact absurd hk (List.not_mem_nil k)
  | cons hd tl ih =>
    intro i st hnd hk hg
    simp only [runFrom]
    by_cases hhd : hd = k
    · subst hhd
      have hguard : ¬(¬force = true ∧ containsKey st.stocks hd = true) := by
        rintro ⟨hf, hcc⟩
        rcases hg with h | h
        · exact hf h
        · simp [h] at hcc
      have heq := processTicker_short_eq env now force total i hd st records hguard hkf hlen
      rw [heq]
      have hnotl : hd ∉ tl := (List.nodup_cons.mp hnd).1
      constructor
      · intro p hp
        rcases List.mem_append.mp hp with hl | hr
        · simp at hl
        · obtain ⟨s, hs, hsym⟩ := runFrom_symbol_mem env now force total tl (i + 1) _ _ hr
          simp [Ev.symbol] at hsym
          exact hnotl (hsym ▸ hs)
      · rw [runFrom_contains_notin env now force total hd tl (i + 1) _ hnotl]
    · have hk2 : k ∈ tl := by
        rcases List.mem_cons.mp hk with h | h
        · exact absurd h.symm hhd
        · exact h
      have hg2 : force = true ∨
          containsKey (processTicker env now force total i hd st).1.stocks k = false := by
        rcases hg with h | h
        · exact Or.inl h
        · right
          rw [processTicker_contains_other env now force total i hd st k hhd]
          exact h
      obtain ⟨hno, hcon⟩ := ih (i + 1) _ (List.nodup_cons.mp hnd).2 hk2 hg2
      constructor
      · intro p hp
        rcases List.mem_append.mp hp with hl | hr
        · have hsym := processTicker_symbol_eq env now force total i hd st _ hl
          simp [Ev.symbol] at hsym
          exact hhd hsym.symm
        · exact hno p hr
      · rw [hcon, processTicker_contains_other env now force total i hd st k hhd]

/-- Error-free runs report non-decreasing percentages, bounded per
iteration window (registry size 5, so iteration `i` starts at `20·i`). -/
theorem runFrom_pairwise (env : String → TickerEnv) (now : ℚ) (force : Bool) :
    ∀ (l : List String) (i : ℕ) (st : RunState),
      (∀ s p, Ev.errStep s p ∉ (runFrom env now force 5 i st l).2) →
      List.Pairwise (fun a b => Ev.pct a ≤ Ev.pct b)
        (runFrom env now force 5 i st l).2 ∧
      ∀ e ∈ (runFrom env now force 5 i st l).2,
        20 * i ≤ Ev.pct e ∧ Ev.pct e ≤ 20 * (i + l.length) := by
  intro l
  induction l with
  | nil =>
    intro i st _
    constructor
    · simp [runFrom]
    · intro e he
      simp [runFrom] at he
  | cons hd tl ih =>
    intro i st hne
    simp only [runFrom, List.length_cons] at hne ⊢
    have hne1 : ∀ s p, Ev.errStep s p ∉ (processTicker env now force 5 i hd st).2 :=
      fun s p hp => hne s p (List.mem_append_left _ hp)
    have hne2 : ∀ s p, Ev.errStep s p ∉
        (runFrom env now force 5 (i + 1) (processTicker env now force 5 i hd st).1 tl).2 :=
      fun s p hp => hne s p (List.mem_append_right _ hp)
    obtain ⟨ihp, ihb⟩ := ih (i + 1) _ hne2
    have hd_facts :
        List.Pairwise (fun a b => Ev.pct a ≤ Ev.pct b)
          (processTicker env now force 5 i hd st).2 ∧
        ∀ e ∈ (processTicker env now force 5 i hd st).2,
          20 * i ≤ Ev.pct e ∧ Ev.pct e ≤ 20 * i + 18 := by
      rcases processTicker_spec env now force 5 i hd st with
        ⟨_, h⟩ | ⟨_, h⟩ | ⟨_, h⟩ | h | h | h | ⟨rec, h⟩
      · rw [h]
        constructor <;> simp [List.pairwise_cons, Ev.pct] <;> omega
      · exfalso
        apply hne1 hd (i * 100 / 5)
        rw [h]
        simp
      · rw [h]
        constructor <;> simp [List.pairwise_cons, Ev.pct] <;> omega
      · exfalso
        apply hne1 hd (i * 100 / 5)
        rw [h]
        simp
      · exfalso
        apply hne1 hd (i * 100 / 5)
        rw [h]
        simp
      · rw [h]
        constructor <;> simp [List.pairwise_cons, Ev.pct] <;> omega
      · rw [h]
        constructor <;> simp [List.pairwise_cons, Ev.pct] <;> omega
    constructor
    · rw [List.pairwise_append]
      refine ⟨hd_facts.1, ihp, ?_⟩
      intro a ha b hb
      have h1 := (hd_facts.2 a ha).2
      have h2 := (ihb b hb).1
      omega
    · intro e he
      rcases List.mem_append.mp he with h1 | h1
      · have hb := hd_facts.2 e h1
        omega
      · have hb := ihb e h1
        omega

/-- The batch trace is the iteration trace followed by the 100% final
event naming the working-set size (registry length 5). -/
theorem run_trace_eq (env : String → TickerEnv) (st : Store) (now : ℚ) (force : Bool) :
    (run_predictions_for_all_sectors env st now force).2
      = (runFrom env now force 5 0 { stocks := initialStocks st force, file := none }
          PREDICTION_ORDER).2
        ++ [Ev.allDone 100
            (runFrom env now force 5 0 { stocks := initialStocks st force, file := none }
              PREDICTION_ORDER).1.stocks.length] := rfl

theorem run_state_eq (env : String → TickerEnv) (st : Store) (now : ℚ) (force : Bool) :
    (run_predictions_for_all_sectors env st now force).1
      = (runFrom env now force 5 0 { stocks := initialStocks st force, file := none }
          PREDICTION_ORDER).1 := rfl

/-- C1 counterexample: a store whose live cache file is missing but whose
seed directory holds a LUCK seed file.  A Resume run's initial working
set is not empty (it is seeded from the seed tier of the tiered load),
contradicting "empty when the live tier is absent". -/
theorem C1_counterexample :
    storeSeedOnly.liveCache = LiveState.absent ∧
    initialStocks storeSeedOnly false ≠ [] :=
  ⟨rfl, by decide⟩

/-- C1 amended: in Force mode the initial working set is empty and every
registry ticker reaches its fetch (is recomputed); in Resume mode the
initial working set is seeded from the **tiered**
`load_cached_predictions` (live tier, falling back to seed data when
the live tier is absent, unparseable or empty), and every ticker of
that initial set keeps its record verbatim, is never fetched, and is
skipped with a skip event when it is a registry ticker. -/
theorem C1_resume_force_amended (st : Store) (env : String → TickerEnv) (now : ℚ) :
    initialStocks st true = [] ∧
    (∀ s, s ∈ PREDICTION_ORDER →
      ∃ p, Ev.fetchStep s p ∈ (run_predictions_for_all_sectors env st now true).2) ∧
    initialStocks st false =
      (match load_cached_predictions st with
        | some doc => if ¬doc.stocks.isEmpty then doc.stocks else []
        | none => []) ∧
    (∀ k, containsKey (initialStocks st false) k = true →
      ((run_predictions_for_all_sectors env st now false).1.stocks.lookup k
        = (initialStocks st false).lookup k) ∧
      (∀ p, Ev.fetchStep k p ∉ (run_predictions_for_all_sectors env st now false).2) ∧
      (k ∈ PREDICTION_ORDER →
        ∃ p, Ev.skip k p ∈ (run_predictions_for_all_sectors env st now false).2)) := by
  refine ⟨rfl, ?_, rfl, ?_⟩
  · intro s hs
    obtain ⟨p, hp⟩ := runFrom_force_fetch env now 5 PREDICTION_ORDER 0
      { stocks := initialStocks st true, file := none } s hs
    refine ⟨p, ?_⟩
    rw [run_trace_eq]
    exact List.mem_append_left _ hp
  · intro k hck
    obtain ⟨h1, h2, h3, h4⟩ := runFrom_retains env now 5 k PREDICTION_ORDER 0
      { stocks := initialStocks st false, file := none } hck
    refine ⟨?_, ?_, ?_⟩
    · rw [run_state_eq]
      exact h1
    · intro p hp
      rw [run_trace_eq] at hp
      rcases List.mem_append.mp hp with h | h
      · exact h3 p h
      · simp at h
    · intro hmem
      obtain ⟨p, hp⟩ := h4 hmem
      refine ⟨p, ?_⟩
      rw [run_trace_eq]
      exact List.mem_append_left _ hp

/-- C1 witness: with a live cache holding LUCK, Force mode starts empty,
and a Resume run skips LUCK. -/
theorem C1_witness :
    initialStocks storeLiveLuck true = [] ∧
    (∃ p, Ev.skip "LUCK" p ∈
      (run_predictions_for_all_sectors envAllRaise storeLiveLuck 0 false).2) :=
  ⟨(C1_resume_force_amended storeLiveLuck envAllRaise 0).1,
   ((C1_resume_force_amended storeLiveLuck envAllRaise 0).2.2.2 "LUCK"
      (by decide)).2.2 (by decide)⟩

/-- C2 counterexample: LUCK's fetch returns only 10 records (fewer than
200), yet the batch run emits **no** error progress event for LUCK —
the insufficient-history case is skipped with only a log warning,
contradicting "emits an error progress event for that ticker". -/
theorem C2_counterexample :
    (envShortHistory "LUCK").fetch
      = FetchResult.ok (List.replicate 10 ⟨0, 1⟩) ∧
    (List.replicate 10 ((⟨0, 1⟩ : OHLCVRec))).length < 200 ∧
    (∀ p, Ev.errStep "LUCK" p ∉
      (run_predictions_for_all_sectors envShortHistory storeEmpty 0 true).2) := by
  refine ⟨rfl, by simp, ?_⟩
  obtain ⟨hno, -⟩ := runFrom_short_isolation envShortHistory 0 true 5
    "LUCK" (List.replicate 10 ⟨0, 1⟩) rfl (by simp) PREDICTION_ORDER 0
    { stocks := initialStocks storeEmpty true, file := none } (by decide) (by decide)
    (Or.inl rfl)
  intro p hp
  rw [run_trace_eq] at hp
  rcases List.mem_append.mp hp with h | h
  · exact hno p h
  · simp at h

/-- C2 amended: a registry ticker whose fetch raises gets an error
progress event and is excluded from the resulting cache; one whose
fetch yields fewer than 200 records is skipped **silently** (no
progress event, log only) and is likewise excluded; in both cases the
batch continues — every registry ticker still gets its start event —
and the run completes with the final 100% event. -/
theorem C2_failure_isolation_amended (env : String → TickerEnv) (st : Store)
    (now : ℚ) (force : Bool) (s : String) (hs : s ∈ PREDICTION_ORDER)
    (hnc : force = true ∨ containsKey (initialStocks st force) s = false) :
    ((env s).fetch = FetchResult.raises →
      (∃ p, Ev.errStep s p ∈ (run_predictions_for_all_sectors env st now force).2) ∧
      containsKey (run_predictions_for_all_sectors env st now force).1.stocks s
        = false) ∧
    (∀ records, (env s).fetch = FetchResult.ok records → records.length < 200 →
      (∀ p, Ev.errStep s p ∉ (run_predictions_for_all_sectors env st now force).2) ∧
      containsKey (run_predictions_for_all_sectors env st now force).1.stocks s
        = false) ∧
    (∀ s2, s2 ∈ PREDICTION_ORDER →
      ∃ p, Ev.start s2 p ∈ (run_predictions_for_all_sectors env st now force).2) ∧
    (run_predictions_for_all_sectors env st now force).2.getLast?
      = some (Ev.allDone 100
          (run_predictions_for_all_sectors env st now force).1.stocks.length) := by
  have hci : containsKey (initialStocks st force) s = false := by
    rcases hnc with h | h
    · subst h
      rfl
    · exact h
  have hnd : PREDICTION_ORDER.Nodup := by decide
  refine ⟨?_, ?_, ?_, ?_⟩
  · intro hr
    obtain ⟨⟨p, hp⟩, hcon⟩ := runFrom_raises_isolation env now force 5 s hr
      PREDICTION_ORDER 0 { stocks := initialStocks st force, file := none }
      hnd hs (Or.inr hci)
    constructor
    · refine ⟨p, ?_⟩
      rw [run_trace_eq]
      exact List.mem_append_left _ hp
    · rw [run_state_eq, hcon]
      exact hci
  · intro records hr hlen
    obtain ⟨hno, hcon⟩ := runFrom_short_isolation env now force 5 s records hr hlen
      PREDICTION_ORDER 0 { stocks := initialStocks st force, file := none }
      hnd hs (Or.inr hci)
    constructor
    · intro p hp
      rw [run_trace_eq] at hp
      rcases List.mem_append.mp hp with h | h
      · exact hno p h
      · simp at h
    · rw [run_state_eq, hcon]
      exact hci
  · intro s2 hs2
    obtain ⟨p, hp⟩ := runFrom_start_mem env now force 5 PREDICTION_ORDER 0
      { stocks := initialStocks st force, file := none } s2 hs2
    refine ⟨p, ?_⟩
    rw [run_trace_eq]
    exact List.mem_append_left _ hp
  · rw [run_trace_eq, run_state_eq]
    exact List.getLast?_concat _

/-- C2 witness: in the 10-record environment LUCK is silently excluded
and the batch still completes with the final 100% event. -/
theorem C2_witness :
    (∀ p, Ev.errStep "LUCK" p ∉
      (run_predictions_for_all_sectors envShortHistory storeEmpty 0 true).2) ∧
    containsKey
      (run_predictions_for_all_sectors envShortHistory storeEmpty 0 true).1.stocks
      "LUCK" = false ∧
    (run_predictions_for_all_sectors envShortHistory storeEmpty 0 true).2.getLast?
      = some (Ev.allDone 100
        (run_predictions_for_all_sectors envShortHistory storeEmpty 0 true).1.stocks.length) := by
  obtain ⟨-, h2, -, h4⟩ := C2_failure_isolation_amended envShortHistory storeEmpty 0 true
    "LUCK" (by decide) (Or.inl rfl)
  obtain ⟨hno, hcon⟩ := h2 (List.replicate 10 ⟨0, 1⟩) rfl (by simp)
  exact ⟨hno, hcon, h4⟩

/-- C4 counterexample: when LUCK's fetch raises, the run's percentage
sequence is 0, 5, 0, 20, … — the error event reuses the ticker's base
percentage after the 5% fetch step was already reported, so the
sequence is not monotonically non-decreasing. -/
theorem C4_counterexample :
    ¬ List.Pairwise (fun a b => a ≤ b)
      (((run_predictions_for_all_sectors envLuckRaises storeEmpty 0 true).2).map
        Ev.pct) := by
  intro hpair
  rw [show ((run_predictions_for_all_sectors envLuckRaises storeEmpty 0 true).2).map
      Ev.pct = [0, 5, 0, 20, 25, 40, 45, 60, 65, 80, 85, 100] from rfl] at hpair
  have h5 := (List.pairwise_cons.mp (List.pairwise_cons.mp hpair).2).1 0 (by simp)
  omega

/-- C4 amended: in every run in which no per-ticker exception occurs (no
error event is emitted), the percentage sequence passed to the progress
callback is monotonically non-decreasing, and the final event is the
100% all-done event naming the working-set size; an error event,
however, reuses its ticker's base percentage and may be lower than that
ticker's earlier step events. -/
theorem C4_progress_amended (env : String → TickerEnv) (st : Store) (now : ℚ)
    (force : Bool)
    (hne : ∀ s p, Ev.errStep s p ∉
      (run_predictions_for_all_sectors env st now force).2) :
    List.Pairwise (fun a b => a ≤ b)
      ((run_predictions_for_all_sectors env st now force).2.map Ev.pct) ∧
    (run_predictions_for_all_sectors env st now force).2.getLast?
      = some (Ev.allDone 100
        (run_predictions_for_all_sectors env st now force).1.stocks.length) := by
  have hne2 : ∀ s p, Ev.errStep s p ∉
      (runFrom env now force 5 0 { stocks := initialStocks st force, file := none }
        PREDICTION_ORDER).2 := by
    intro s p hp
    apply hne s p
    rw [run_trace_eq]
    exact List.mem_append_left _ hp
  obtain ⟨hp, hb⟩ := runFrom_pairwise env now force PREDICTION_ORDER 0
    { stocks := initialStocks st force, file := none } hne2
  constructor
  · rw [run_trace_eq, List.map_append, List.pairwise_append]
    refine ⟨List.pairwise_map.mpr hp, by simp, ?_⟩
    intro a ha b hb2
    simp only [List.map_cons, List.map_nil, List.mem_singleton] at hb2
    obtain ⟨e, he, rfl⟩ := List.mem_map.mp ha
    have hbound := (hb e he).2
    rw [show (20 * (0 + PREDICTION_ORDER.length)) = 100 from rfl] at hbound
    rw [hb2]
    exact hbound
  · rw [run_trace_eq, run_state_eq]
    exact List.getLast?_concat _

/-- C4 witness: an exception-free run (every ticker short on history) has
the monotone trace 0, 5, 20, 25, …, 100 ending in the all-done
event. -/
theorem C4_witness :
    List.Pairwise (fun a b => a ≤ b)
      (((run_predictions_for_all_sectors envShortHistory storeEmpty 0 true).2).map
        Ev.pct) ∧
    (run_predictions_for_all_sectors envShortHistory storeEmpty 0 true).2.getLast?
      = some (Ev.allDone 100
        (run_predictions_for_all_sectors envShortHistory storeEmpty 0 true).1.stocks.length) := by
  have hne : ∀ s p, Ev.errStep s p ∉
      (run_predictions_for_all_sectors envShortHistory storeEmpty 0 true).2 := by
    intro s p hp
    rw [show (run_predictions_for_all_sectors envShortHistory storeEmpty 0 true).2
      = [Ev.start "LUCK" 0, Ev.fetchStep "LUCK" 5, Ev.start "FFC" 20,
         Ev.fetchStep "FFC" 25, Ev.start "OGDC" 40, Ev.fetchStep "OGDC" 45,
         Ev.start "UBL" 60, Ev.fetchStep "UBL" 65, Ev.start "SYS" 80,
         Ev.fetchStep "SYS" 85, Ev.allDone 100 0] from rfl] at hp
    simp at hp
  exact C4_progress_amended envShortHistory storeEmpty 0 true hne

end BaqiAI
